import Mathlib

/-!
Verification development for the phone-use RPC bridge scripts
(`android_rpc_bridge.py` and `forward_rpc_localhost.py`).

Strings from the Python source are modelled as `List Char` (named `Str`
below); Python floats are modelled as exact rationals (`ℚ`), so the
decimal formatting/rounding below is the exact-value semantics of
CPython's `%.1f` / `round` (round half to even on the exact value).
-/

deriving instance DecidableEq for Except

set_option maxRecDepth 8000

set_option linter.unusedVariables false

namespace Bridge

/-- Model of a Python byte/character string. -/
abbrev Str := List Char

/-- Convert a Lean string literal into the model type. -/
def str (s : String) : Str := s.data

/-- Python whitespace characters (`bytes.strip` / `str.strip` / regex `\s`,
ASCII range): space, tab, newline, carriage return, vertical tab, form feed. -/
def isPySpace (c : Char) : Bool :=
  c.toNat = 32 || c.toNat = 9 || c.toNat = 10 || c.toNat = 13 ||
    c.toNat = 11 || c.toNat = 12

/-- ASCII decimal digit (regex `\d` with ASCII semantics). -/
def isDigitChar (c : Char) : Bool := 48 ≤ c.toNat && c.toNat ≤ 57

/-- Python `str.strip()` / `bytes.strip()`: drop whitespace from both ends. -/
def pyStrip (l : Str) : Str :=
  ((l.dropWhile isPySpace).reverse.dropWhile isPySpace).reverse

/-- Skip over leading whitespace, the `\s*` of the coordinate regex. -/
def skipWs (l : Str) : Str := l.dropWhile isPySpace

/-- Character for a single decimal digit value. -/
def digitChar (n : Nat) : Char := Char.ofNat (48 + n)

/-- Decimal digit characters of `n`, most significant first (auxiliary,
accumulator style; `fuel` bounds the recursion and any `fuel ≥ n`
computes the digits exactly). -/
def natToDigitsGo : Nat → Nat → Str → Str
  | 0, _, acc => acc
  | fuel + 1, n, acc =>
    if n = 0 then acc
    else natToDigitsGo fuel (n / 10) (digitChar (n % 10) :: acc)

/-- Decimal digit characters of `n`, most significant first. -/
def natToDigits (n : Nat) : Str :=
  if n = 0 then [digitChar 0] else natToDigitsGo n n []

/-- Numeric value of a digit string (left fold, as a parser accumulates). -/
def digitsVal (l : Str) : Nat :=
  l.foldl (fun a c => 10 * a + (c.toNat - 48)) 0

/-- Value of a fractional digit string `fs` read after a decimal point. -/
def fracVal (fs : Str) : ℚ := (digitsVal fs : ℚ) / (10 : ℚ) ^ fs.length

/-- Round a rational to the nearest integer, ties to even: the exact-value
semantics of CPython `round` and of `%.1f` formatting (after scaling). -/
def roundHalfEven (q : ℚ) : ℤ :=
  let f := ⌊q⌋
  let r := q - (f : ℚ)
  if r < 1 / 2 then f
  else if 1 / 2 < r then f + 1
  else if f % 2 = 0 then f else f + 1

/-- Render an integer number of tenths `n` as the decimal string `%.1f`
produces for the value `n / 10`. -/
def fmtTenths (n : ℤ) : Str :=
  (if n < 0 then ['-'] else []) ++
    natToDigits (n.natAbs / 10) ++ '.' :: [digitChar (n.natAbs % 10)]

/-- Shallow embedding of `_format_rect`: each component is rendered with
exactly one decimal digit (`f-string` `:.1f`), in the brace-pair layout
`\x7b\x7bx, y\x7d, \x7bw, h\x7d\x7d`. -/
def formatRect (x y w h : ℚ) : Str :=
  '\x7b' :: '\x7b' :: fmtTenths (roundHalfEven (10 * x)) ++
    ',' :: ' ' :: fmtTenths (roundHalfEven (10 * y)) ++
    '\x7d' :: ',' :: ' ' :: '\x7b' :: fmtTenths (roundHalfEven (10 * w)) ++
    ',' :: ' ' :: fmtTenths (roundHalfEven (10 * h)) ++
    '\x7d' :: '\x7d' :: []

/-- Take the maximal leading run of ASCII digits together with the rest. -/
def spanDigits (l : Str) : Str × Str :=
  (l.takeWhile isDigitChar, l.dropWhile isDigitChar)

/-- Parse one number of the coordinate regex, `-?\d+(?:\.\d+)?`: optional
sign, one or more digits, optionally a point followed by one or more
digits; when a point is not followed by a digit it is left unconsumed
(the regex group backtracks to empty). Returns the value and the rest. -/
def parseNum (l : Str) : Option (ℚ × Str) :=
  let signed : Bool × Str := match l with
    | c :: r => if c = '-' then (true, r) else (false, c :: r)
    | [] => (false, [])
  let ds := spanDigits signed.2
  if ds.1 = [] then none
  else
    let ipart : ℚ := (digitsVal ds.1 : ℚ)
    match ds.2 with
    | c :: r =>
      if c = '.' then
        let fs := spanDigits r
        if fs.1 = [] then
          some ((if signed.1 then -ipart else ipart), c :: r)
        else
          some ((if signed.1 then -(ipart + fracVal fs.1) else ipart + fracVal fs.1), fs.2)
      else
        some ((if signed.1 then -ipart else ipart), c :: r)
    | [] => some ((if signed.1 then -ipart else ipart), [])

/-- Expect one literal character at the head of the input. -/
def expectChar (c : Char) : Str → Option Str
  | x :: r => if x = c then some r else none
  | [] => none

/-- Shallow embedding of `COORD_RE.fullmatch`: the anchored pattern
`\x7b\x7b\s*N\s*,\s*N\s*\x7d,\s*\x7b\s*N\s*,\s*N\s*\x7d\x7d` with
`N = -?\d+(?:\.\d+)?`.  Note the pattern allows no whitespace between the
first pair's closing brace and the comma (`\x7d\,`), nor inside the
double braces at either end. -/
def parseRectCore (l : Str) : Option (ℚ × ℚ × ℚ × ℚ) := do
  let r ← expectChar '\x7b' l
  let r ← expectChar '\x7b' r
  let (a, r) ← parseNum (skipWs r)
  let r ← expectChar ',' (skipWs r)
  let (b, r) ← parseNum (skipWs r)
  let r ← expectChar '\x7d' (skipWs r)
  let r ← expectChar ',' r
  let r ← expectChar '\x7b' (skipWs r)
  let (c, r) ← parseNum (skipWs r)
  let r ← expectChar ',' (skipWs r)
  let (d, r) ← parseNum (skipWs r)
  let r ← expectChar '\x7d' (skipWs r)
  let r ← expectChar '\x7d' r
  if r = [] then some (a, b, c, d) else none

/-- Error message raised by `_parse_coordinate_rect` on a failed match. -/
def coordErrMsg (s : Str) : Str :=
  str "coordinate must look like \x7b\x7bx, y\x7d, \x7bw, h\x7d\x7d; got " ++
    '\x27' :: s ++ ['\x27']

/-- Shallow embedding of `_parse_coordinate_rect`: strip the input, run the
anchored coordinate pattern, and fail with an `RPCError` naming the input
when it does not match. -/
def parseCoordinateRect (s : Str) : Except Str (ℚ × ℚ × ℚ × ℚ) :=
  match parseRectCore (pyStrip s) with
  | some v => .ok v
  | none => .error (coordErrMsg s)

/-- Characters escaped with a backslash by `_escape_adb_text`. -/
def isAdbSpecial (c : Char) : Bool :=
  c ∈ str "\\\"\x27`()[]\x7b\x7d<>|;&*~$"

/-- Shallow embedding of `_escape_adb_text`: spaces and tabs become `%s`,
shell-special characters get a backslash, everything else passes through. -/
def escapeAdbText (t : Str) : Str :=
  t.flatMap (fun ch =>
    if ch = ' ' || ch = '\t' then str "%s"
    else if isAdbSpecial ch then ['\\', ch]
    else [ch])

/-- Auxiliary for `chunkText`: `fuel ≥ l.length` computes the chunks
exactly. -/
def chunkTextGo : Nat → Nat → Str → List Str
  | 0, _, _ => []
  | _ + 1, _, [] => []
  | fuel + 1, size, c :: rest =>
    (c :: rest).take size :: chunkTextGo fuel size (rest.drop (size - 1))

/-- Shallow embedding of `_chunk_text`: split into pieces of at most
`size` characters (the Python slices `text[i : i + size]`). -/
def chunkText (size : Nat) (l : Str) : List Str :=
  chunkTextGo l.length size l

/-- Python `text.split(sep)` for a one-character separator: every
occurrence splits, empty pieces are kept, the result is never empty. -/
def pySplitOn (sep : Char) : Str → List Str
  | [] => [[]]
  | c :: r =>
    if c = sep then [] :: pySplitOn sep r
    else
      match pySplitOn sep r with
      | p :: ps => (c :: p) :: ps
      | [] => [[c]]

/-- One device interaction issued through `adb` by the dispatcher. -/
inductive Act where
  | tap (x y : ℤ)
  | swipe (x1 y1 x2 y2 : ℤ) (durationMs : ℕ)
  | text (payload : Str)
  | key (code : ℕ)
  | sleep
  deriving DecidableEq, Repr

/-- Device interactions of one line of `_input_text`: each 80-character
chunk is escaped and sent as an `input text` call when the escaped form
is non-empty. -/
def lineActs (l : Str) : List Act :=
  (chunkText 80 l).flatMap (fun ch =>
    let escaped := escapeAdbText ch
    if escaped = [] then [] else [.text escaped])

/-- Device interactions of the `_input_text` loop over the split lines:
every line's chunks, with a key event 66 after each line except the
last (`line_index < len(lines) - 1`). -/
def inputLinesActs : List Str → List Act
  | [] => []
  | [l] => lineActs l
  | l :: l2 :: rest => lineActs l ++ .key 66 :: inputLinesActs (l2 :: rest)

/-- Shallow embedding of `_input_text`: empty text short-circuits, other
text is split on newlines and sent line by line. -/
def inputTextActs (t : Str) : List Act :=
  if t = [] then [] else inputLinesActs (pySplitOn '\n' t)

/-- Center of a coordinate rect as computed by `_center_of_coordinate`:
`int(round(x + w / 2))`, CPython rounding (half to even). -/
def centerOfRect (x w : ℚ) : ℤ := roundHalfEven (x + w / 2)

/-- Shallow embedding of the `enter_text` branch of
`AndroidDeviceBridge.handle`: parse the coordinate, tap its center,
pause, inject the text, then send one key event 66. -/
def enterTextActs (coordinate : Str) (text : Str) : Except Str (List Act) :=
  match parseCoordinateRect coordinate with
  | .error m => .error m
  | .ok (x, y, w, h) =>
    .ok (.tap (centerOfRect x w) (centerOfRect y h) :: .sleep ::
      inputTextActs text ++ [.key 66])

/-- Result payload of the `tap_element` branch. -/
structure TapElementResult where
  coordinate : Str
  count : ℤ
  longPress : Bool
  tree : Str
  deriving DecidableEq, Repr

/-- Shallow embedding of the `tap_element` branch of
`AndroidDeviceBridge.handle`.  `count` is the integer obtained from the
request parameters (default 1), `tree` the hierarchy snapshot the device
would report afterwards.  Returns the outcome together with the device
interactions issued. -/
def tapElementRun (coordinate : Str) (count : ℤ) (longPress : Bool)
    (tree : Str) : Except Str TapElementResult × List Act :=
  if count < 1 then (.error (str "count must be >= 1"), [])
  else
    match parseCoordinateRect coordinate with
    | .error m => (.error m, [])
    | .ok (x, y, w, h) =>
      let cx := centerOfRect x w
      let cy := centerOfRect y h
      if longPress then
        (.ok ⟨coordinate, 1, true, tree⟩, [.swipe cx cy cx cy 550])
      else
        (.ok ⟨coordinate, count, false, tree⟩,
          List.replicate count.toNat (.tap cx cy))

/-- ASCII letter (regex `[A-Za-z]`). -/
def isAsciiLetter (c : Char) : Bool :=
  (65 ≤ c.toNat && c.toNat ≤ 90) || (97 ≤ c.toNat && c.toNat ≤ 122)

/-- Character allowed after the first letter of a package segment
(regex `[A-Za-z0-9_]`). -/
def isSegChar (c : Char) : Bool :=
  isAsciiLetter c || isDigitChar c || c = '_'

/-- Consume one package segment, `[A-Za-z][A-Za-z0-9_]*`, returning the
rest of the input; fails if the head is not a letter. -/
def segSpan : Str → Option Str
  | [] => none
  | c :: r => if isAsciiLetter c then some (r.dropWhile isSegChar) else none

/-- Auxiliary for `matchesPackageRe`: after the first segment, consume
`(\.[A-Za-z][A-Za-z0-9_]*)+` up to end of input, counting the dots;
`fuel ≥ r.length` decides the pattern exactly. -/
def dotSegsGo : Nat → Str → Nat → Bool
  | 0, r, n => r = [] && decide (1 ≤ n)
  | fuel + 1, r, n =>
    match r with
    | [] => decide (1 ≤ n)
    | c :: rest =>
      if c = '.' then
        match segSpan rest with
        | none => false
        | some r2 => dotSegsGo fuel r2 (n + 1)
      else false

/-- Shallow embedding of `PACKAGE_RE.fullmatch`: the anchored pattern
`[A-Za-z][A-Za-z0-9_]*(?:\.[A-Za-z][A-Za-z0-9_]*)+` — at least two
dot-separated segments, each a letter followed by word characters. -/
def matchesPackageRe (s : Str) : Bool :=
  match segSpan s with
  | none => false
  | some r => dotSegsGo s.length r 0

/-- Python truthiness-based choice
`params.get("bundle_identifier") or params.get("package_name") or ""`
for string-valued parameters: an absent key or an empty string falls
through to the next alternative. -/
def firstTruthy (a b : Option Str) : Str :=
  match a with
  | some s => if s = [] then (match b with
      | some t => if t = [] then [] else t
      | none => []) else s
  | none =>
    match b with
    | some t => if t = [] then [] else t
    | none => []

/-- Device interactions of the `open_app` branch, abstracted: the launch
sequence of `_launch_package`, the foreground re-query of
`_foreground_package`, and the hierarchy dump of `_current_tree`. -/
inductive DevAct where
  | launch (package : Str)
  | queryForeground
  | dumpTree
  deriving DecidableEq, Repr

/-- What the device does when `_launch_package` runs: either it returns
normally or it raises an `RPCError` with a message. -/
inductive LaunchOutcome where
  | ok
  | fail (msg : Str)
  deriving DecidableEq, Repr

/-- Result payload of the `open_app` branch. -/
structure OpenAppResult where
  bundleIdentifier : Str
  packageName : Str
  tree : Str
  deriving DecidableEq, Repr

/-- Error message for a foreground mismatch after launching. -/
def foregroundErrMsg (package foreground : Str) : Str :=
  str "failed to foreground app " ++ '\x27' :: package ++
    str "\x27 (current foreground package: \x27" ++ foreground ++ str "\x27)"

/-- Error message for an identifier rejected by the package pattern. -/
def invalidPackageMsg (package : Str) : Str :=
  str "bundle_identifier " ++ '\x27' :: package ++
    str "\x27 is not a valid Android package name"

/-- Shallow embedding of the `open_app` branch of
`AndroidDeviceBridge.handle`.  `bundleIdentifier`/`packageName` are the
string parameters of the request (absent = `none`); `launch` and
`foreground` are the device-side outcomes of the launch attempt and of
the foreground re-query; `tree` is the hierarchy snapshot.  Returns the
outcome together with the device interactions issued, in order. -/
def openAppRun (bundleIdentifier packageName : Option Str)
    (launch : LaunchOutcome) (foreground : Option Str) (tree : Str) :
    Except Str OpenAppResult × List DevAct :=
  let package := pyStrip (firstTruthy bundleIdentifier packageName)
  if package = [] then (.error (str "bundle_identifier is required"), [])
  else if matchesPackageRe package = false then
    (.error (invalidPackageMsg package), [])
  else
    match launch with
    | .fail m => (.error m, [.launch package])
    | .ok =>
      match foreground with
      | some fg =>
        if fg ≠ package then
          (.error (foregroundErrMsg package fg),
            [.launch package, .queryForeground])
        else
          (.ok ⟨package, package, tree⟩,
            [.launch package, .queryForeground, .dumpTree])
      | none =>
        (.ok ⟨package, package, tree⟩,
          [.launch package, .queryForeground, .dumpTree])

/-- Requests relevant to the stored API key: the `set_api_key` and
`submit_prompt` branches of `AndroidDeviceBridge.handle`. -/
inductive ApiReq where
  | setApiKey (key : Str)
  | submitPrompt
  deriving DecidableEq, Repr

/-- Python truthiness of the `api_key` field (`if not self.api_key`):
false for `None` and for the empty string. -/
def keyTruthy : Option Str → Bool
  | none => false
  | some s => decide (s ≠ [])

/-- Error message of `submit_prompt` once a key is stored. -/
def notSupportedMsg : Str :=
  str "submit_prompt is not yet supported on the Android bridge; use RPC tool methods directly"

/-- Shallow embedding of the key-relevant branches of
`AndroidDeviceBridge.handle`, acting on the bridge's `api_key` field:
`set_api_key` strips the key, rejects an empty result and stores the
rest; `submit_prompt` always fails, with the message depending on
whether a key is stored. -/
def bridgeStep (st : Option Str) : ApiReq → Option Str × Except Str Bool
  | .setApiKey k =>
    let key := pyStrip k
    if key = [] then (st, .error (str "api_key is required"))
    else (some key, .ok true)
  | .submitPrompt =>
    if keyTruthy st then (st, .error notSupportedMsg)
    else (st, .error (str "No API key found"))

/-- The serialized request stream seen by the one bridge instance that
`AndroidRPCServer.__init__` stores and every connection thread shares:
each event carries the connection that sent it. -/
abbrev ApiTrace := List (Nat × ApiReq)

/-- Run a serialized request stream through the single shared bridge,
producing each connection's response in order. -/
def runTrace (st : Option Str) : ApiTrace → List (Nat × Except Str Bool)
  | [] => []
  | (c, r) :: rest =>
    let step := bridgeStep st r
    (c, step.2) :: runTrace step.1 rest

/-- The bridge's `api_key` field after a serialized request stream. -/
def traceState (st : Option Str) (t : ApiTrace) : Option Str :=
  t.foldl (fun s e => (bridgeStep s e.2).1) st

/-- Whether an event is a `set_api_key` that succeeds (non-empty key
after stripping). -/
def isGoodSet (e : Nat × ApiReq) : Bool :=
  match e.2 with
  | .setApiKey k => decide (pyStrip k ≠ [])
  | .submitPrompt => false

/-- JSON values, the result type of `json.loads`. -/
inductive JVal where
  | null
  | bool (b : Bool)
  | num (q : ℚ)
  | str (s : Str)
  | arr (elems : List JVal)
  | obj (fields : List (Str × JVal))

/-- Key lookup in the field list of a JSON object (`dict.get`): the
field list stands for the decoded dict, keys unique. -/
def lookupField (fields : List (Str × JVal)) (k : Str) : Option JVal :=
  match fields with
  | [] => none
  | (k2, v) :: rest => if k2 = k then some v else lookupField rest k

/-- Outcome of `self.bridge.handle(method, params)`: a result payload
with the stop flag, an `RPCError`, or any other exception. -/
inductive HandleOutcome where
  | ok (result : JVal) (stop : Bool)
  | rpcError (msg : Str)
  | exn (msg : Str)

/-- One response line written by `_send`: the echoed id and exactly the
fields the two `_send` call sites put in the payload. -/
structure Response where
  id : JVal
  result : Option JVal
  error : Option Str

/-- Message wrapper of the catch-all `except Exception` branch. -/
def internalErrMsg (m : Str) : Str := str "Internal error: " ++ m

/-- Shallow embedding of `AndroidRPCServer._handle_line`.  `parsed` is
the outcome of `json.loads` on the line (`.error` carries the decoder
message, which the catch-all branch wraps), `handle` the dispatcher.
The returned list holds one entry per `_send` call; the function is
total, which models that no exception escapes the per-line boundary. -/
def handleLine (parsed : Except Str JVal)
    (handle : Str → List (Str × JVal) → HandleOutcome) : List Response :=
  match parsed with
  | .error m => [⟨.null, none, some (internalErrMsg m)⟩]
  | .ok (.obj fields) =>
    let reqId := (lookupField fields (str "id")).getD .null
    match (lookupField fields (str "method")).getD .null with
    | .null => [⟨reqId, none, some (str "Missing \x27method\x27 field")⟩]
    | .str method =>
      (match (lookupField fields (str "params")).getD (.obj []) with
       | .obj pfields =>
         (match handle method pfields with
          | .ok result _ => [⟨reqId, some result, none⟩]
          | .rpcError m => [⟨reqId, none, some m⟩]
          | .exn m => [⟨reqId, none, some (internalErrMsg m)⟩])
       | _ => [⟨reqId, none, some (str "Field \x27params\x27 must be an object")⟩])
    | _ => [⟨reqId, none, some (str "Field \x27method\x27 must be a string")⟩]
  | .ok _ => [⟨.null, none, some (str "Invalid JSON payload")⟩]

/-- Split a buffer at its first newline (`buffer.find(b"\n")` plus the
`del buffer[: nl + 1]`): the extracted line and the remaining buffer. -/
def splitFirstNl (buf : Str) : Option (Str × Str) :=
  match buf with
  | [] => none
  | c :: r =>
    if c = '\n' then some ([], r)
    else (splitFirstNl r).map (fun p => (c :: p.1, p.2))

/-- Shallow embedding of the per-connection read loop of
`AndroidRPCServer._handle_connection`, applied to the connection's whole
received byte stream: extract each complete line, strip it, silently
skip the empty ones, and hand the rest to `_handle_line`, collecting
every response written.  Trailing bytes with no newline are left in the
buffer and produce nothing. -/
def drainBufferGo (pj : Str → Except Str JVal)
    (handle : Str → List (Str × JVal) → HandleOutcome) :
    Nat → Str → List Response
  | 0, _ => []
  | fuel + 1, buf =>
    match splitFirstNl buf with
    | none => []
    | some (line, rest) =>
      let l := pyStrip line
      (if l = [] then [] else handleLine (pj l) handle) ++
        drainBufferGo pj handle fuel rest

/-- Entry point of the drain loop: the buffer's length is enough fuel,
since every extracted line consumes at least the newline byte. -/
def drainBuffer (pj : Str → Except Str JVal)
    (handle : Str → List (Str × JVal) → HandleOutcome) (buf : Str) :
    List Response :=
  drainBufferGo pj handle buf.length buf

/-- Hostname suffix of a CoreDevice tunnel. -/
def coredeviceSuffix : Str := str ".coredevice.local"

/-- The tunnel hostname derived directly from the device identifier. -/
def derivedHost (udid : Str) : Str :=
  if coredeviceSuffix.isSuffixOf udid then udid else udid ++ coredeviceSuffix

/-- Order-preserving deduplication with a seen set, as in
`_coredevice_candidates`. -/
def pyDedupGo : List Str → List Str → List Str
  | _, [] => []
  | seen, h :: t =>
    if h ∈ seen then pyDedupGo seen t else h :: pyDedupGo (h :: seen) t

/-- Order-preserving deduplication (empty seen set). -/
def pyDedup (l : List Str) : List Str := pyDedupGo [] l

/-- Shallow embedding of `_coredevice_candidates`: the derived hostname
first, then the hostnames the external device-listing query returned,
deduplicated preserving order. -/
def coredeviceCandidates (udid : Str) (queryHosts : List Str) : List Str :=
  pyDedup (derivedHost udid :: queryHosts)

/-- The for-loop of `connect_remote` over the candidate hostnames:
return the first that accepts a TCP connection. -/
def firstConnect (connects : Str → Bool) : List Str → Option Str
  | [] => none
  | h :: t => if connects h then some h else firstConnect connects t

/-- State of the USB-multiplexed fallback: library missing, device not
found, connect raised, or a live channel. -/
inductive UsbmuxEnv where
  | unavailable
  | noDevice
  | connectFail (detail : Str)
  | ok
  deriving DecidableEq, Repr

/-- Environment of one forwarding attempt: the device-listing query
result, which hostnames accept a TCP connection, and the USB fallback
state. -/
structure FwdEnv where
  devicectlHosts : List Str
  connects : Str → Bool
  usbmux : UsbmuxEnv

/-- The remote socket obtained, tagged by the strategy that produced it. -/
inductive RemoteConn where
  | coredevice (host : Str)
  | usbmux
  deriving DecidableEq, Repr

/-- Shallow embedding of `connect_remote`: try every tunnel hostname
candidate in order, then the USB-multiplexed lookup only if the library
is importable.  Returns the socket (if any) and the `via` diagnostic. -/
def connectRemote (udid : Str) (env : FwdEnv) : Option RemoteConn × Str :=
  match firstConnect env.connects (coredeviceCandidates udid env.devicectlHosts) with
  | some h => (some (.coredevice h), str "coredevice(" ++ h ++ [')'])
  | none =>
    match env.usbmux with
    | .unavailable =>
      (none, str "unavailable(no coredevice hostname, no pymobiledevice3)")
    | .noDevice => (none, str "usbmux(device not found)")
    | .connectFail d => (none, str "usbmux(connect failed: " ++ d ++ [')'])
    | .ok => (some .usbmux, str "usbmux")

/-- Outcome of `handle_client` for one accepted local connection. -/
inductive HCResult where
  | dropped
  | relayed (via : RemoteConn)
  deriving DecidableEq, Repr

/-- Shallow embedding of `handle_client`: no remote socket means the
local connection is closed without `pump` ever running (no bytes
relayed); otherwise the pairing is pumped. -/
def handleClient (udid : Str) (env : FwdEnv) : HCResult :=
  match (connectRemote udid env).1 with
  | none => .dropped
  | some r => .relayed r

/-- An element of the parsed UI dump: tag, attribute map, children. -/
inductive XNode where
  | mk (tag : Str) (attrs : List (Str × Str)) (children : List XNode)

/-- Attribute lookup (`ElementTree` attribute dict `.get`). -/
def attrGet (attrs : List (Str × Str)) (k : Str) : Option Str :=
  match attrs with
  | [] => none
  | (k2, v) :: rest => if k2 = k then some v else attrGet rest k

/-- Lowercase hexadecimal digit. -/
def hexDigit (n : Nat) : Char :=
  if n < 10 then digitChar n else Char.ofNat (87 + n)

/-- Four lowercase hexadecimal digits of `n < 0x10000`. -/
def hex4 (n : Nat) : Str :=
  [hexDigit (n / 4096 % 16), hexDigit (n / 256 % 16),
    hexDigit (n / 16 % 16), hexDigit (n % 16)]

/-- Escape one character the way `json.dumps` (default `ensure_ascii`)
escapes characters inside a string literal; code points beyond the BMP
become a surrogate pair. -/
def jsonEscapeChar (c : Char) : Str :=
  if c = '"' then str "\\\""
  else if c = '\\' then str "\\\\"
  else if c = '\n' then str "\\n"
  else if c = '\t' then str "\\t"
  else if c = '\r' then str "\\r"
  else if c.toNat = 8 then str "\\b"
  else if c.toNat = 12 then str "\\f"
  else if c.toNat < 32 || 126 < c.toNat then
    if c.toNat < 65536 then '\\' :: 'u' :: hex4 c.toNat
    else
      '\\' :: 'u' :: hex4 (55296 + (c.toNat - 65536) / 1024) ++
        '\\' :: 'u' :: hex4 (56320 + (c.toNat - 65536) % 1024)
  else [c]

/-- The JSON string literal for `s`, quotes included (`json.dumps(s)`). -/
def jsonQuote (s : Str) : Str := '"' :: s.flatMap jsonEscapeChar ++ ['"']

/-- Parse one signed integer of `BOUNDS_RE` (`-?\d+`). -/
def parseIntNum (l : Str) : Option (ℤ × Str) :=
  let signed : Bool × Str := match l with
    | '-' :: r => (true, r)
    | _ => (false, l)
  let ds := spanDigits signed.2
  if ds.1 = [] then none
  else
    some ((if signed.1 then -(digitsVal ds.1 : ℤ) else (digitsVal ds.1 : ℤ)), ds.2)

/-- Shallow embedding of `BOUNDS_RE.fullmatch`: the anchored two-corner
pattern `[x1,y1][x2,y2]` with signed integers and no whitespace. -/
def boundsCore (l : Str) : Option (ℤ × ℤ × ℤ × ℤ) := do
  let r ← expectChar '[' l
  let (x1, r) ← parseIntNum r
  let r ← expectChar ',' r
  let (y1, r) ← parseIntNum r
  let r ← expectChar ']' r
  let r ← expectChar '[' r
  let (x2, r) ← parseIntNum r
  let r ← expectChar ',' r
  let (y2, r) ← parseIntNum r
  let r ← expectChar ']' r
  if r = [] then some (x1, y1, x2, y2) else none

/-- Shallow embedding of `_bounds_to_rect`: strip, match the two-corner
pattern, and clamp negative extents to zero; `none` on mismatch. -/
def boundsToRect (bounds : Str) : Option (ℚ × ℚ × ℚ × ℚ) :=
  (boundsCore (pyStrip bounds)).map (fun q =>
    ((q.1 : ℚ), (q.2.1 : ℚ), max 0 ((q.2.2.1 : ℚ) - q.1),
      max 0 ((q.2.2.2 : ℚ) - q.2.1)))

/-- The class-name field: last dot-separated component of the `class`
attribute (default `Node`), falling back to `Node` when empty. -/
def classNameOf (attrs : List (Str × Str)) : Str :=
  let base := (attrGet attrs (str "class")).getD (str "Node")
  let last := (pySplitOn '.' base).getLastD []
  if last = [] then str "Node" else last

/-- The comma-joined fields of one rendered node line, in the fixed
source order with its omission rules. -/
def nodeParts (attrs : List (Str × Str)) : List Str :=
  let text := pyStrip ((attrGet attrs (str "text")).getD [])
  let desc := pyStrip ((attrGet attrs (str "content-desc")).getD [])
  let identifier := pyStrip ((attrGet attrs (str "resource-id")).getD [])
  let bounds := pyStrip ((attrGet attrs (str "bounds")).getD [])
  let clickable := pyStrip ((attrGet attrs (str "clickable")).getD [])
  let label := if text = [] then desc else text
  [classNameOf attrs] ++
    (if label = [] then [] else [str "label: " ++ jsonQuote label]) ++
    (if desc ≠ [] ∧ desc ≠ label then [str "value: " ++ jsonQuote desc] else []) ++
    (if identifier = [] then [] else [str "identifier: " ++ jsonQuote identifier]) ++
    (match boundsToRect bounds with
     | some r => [str "frame: " ++ formatRect r.1 r.2.1 r.2.2.1 r.2.2.2]
     | none => []) ++
    (if clickable = str "true" then [str "clickable: true"] else [])

/-- One rendered line: two spaces of indentation per depth level, then
the comma-joined fields. -/
def renderLine (attrs : List (Str × Str)) (depth : Nat) : Str :=
  List.replicate (2 * depth) ' ' ++ List.intercalate (str ", ") (nodeParts attrs)

mutual

/-- Shallow embedding of the nested `walk` of `_format_tree`: a `node`
element appends its line and visits children one level deeper, any
other element visits children at the same depth; `lines` is the
accumulator list. -/
def walkNode : XNode → Nat → List Str → List Str
  | .mk tag attrs children, depth, lines =>
    if tag = str "node" then
      walkChildren children (depth + 1) (lines ++ [renderLine attrs depth])
    else
      walkChildren children depth lines

/-- The `for child in list(node)` loop of `walk`. -/
def walkChildren : List XNode → Nat → List Str → List Str
  | [], _, lines => lines
  | c :: cs, depth, lines => walkChildren cs depth (walkNode c depth lines)

end

/-- Shallow embedding of `_format_tree` applied to an already-parsed
tree: seed the accumulator with the `Hierarchy` header, walk from the
root at depth 0, and join with newlines. -/
def formatTree (root : XNode) : Str :=
  List.intercalate ['\n'] (walkNode root 0 [str "Hierarchy"])

mutual

/-- Declarative rendering of one element: its own line (when the tag is
`node`) followed by the pre-order rendering of its children. -/
def specNodeLines : XNode → Nat → List Str
  | .mk tag attrs children, depth =>
    if tag = str "node" then
      renderLine attrs depth :: specChildrenLines children (depth + 1)
    else
      specChildrenLines children depth

/-- Declarative pre-order rendering of a forest. -/
def specChildrenLines : List XNode → Nat → List Str
  | [], _ => []
  | c :: cs, depth => specNodeLines c depth ++ specChildrenLines cs depth

end

/-- A string whose head (if any) falsifies the predicate: the boundary
condition under which greedy character spans stop exactly there. -/
def HeadFalse (p : Char → Bool) (r : Str) : Prop :=
  ∀ c cs, r = c :: cs → p c = false

/-- A string of whitespace characters only. -/
def WsOk (w : Str) : Prop := ∀ c ∈ w, isPySpace c = true

/-- A non-empty string of ASCII digits, the shape of a matched `\d+`. -/
def DigitsOk (ds : Str) : Prop := ds ≠ [] ∧ ∀ c ∈ ds, isDigitChar c = true

/-- A string that cannot extend a just-parsed number: its head is
neither a digit nor a decimal point. -/
def NumBoundary (r : Str) : Prop :=
  ∀ c cs, r = c :: cs → isDigitChar c = false ∧ c ≠ '.'

/-- The builder of one number literal matched by `-?\d+(?:\.\d+)?`. -/
def numLit (sg : Bool) (ds : Str) (fr : Option Str) : Str :=
  (if sg then ['-'] else []) ++ ds ++
    (match fr with
     | some f => '.' :: f
     | none => [])

/-- The rational value of one number literal. -/
def numVal (sg : Bool) (ds : Str) (fr : Option Str) : ℚ :=
  match fr with
  | none => if sg then -(digitsVal ds : ℚ) else (digitsVal ds : ℚ)
  | some f =>
    if sg then -((digitsVal ds : ℚ) + fracVal f)
    else (digitsVal ds : ℚ) + fracVal f

/-- The id a response must echo: whatever id was parsable from the line
(the `id` field of a decoded object), `null` otherwise. -/
def expectedId : Except Str JVal → JVal
  | .error _ => .null
  | .ok (.obj fields) => (lookupField fields (str "id")).getD .null
  | .ok _ => .null

/-- The complete lines of a byte stream: everything before each newline,
in order; the trailing segment after the last newline is not a line. -/
def completeLines (data : Str) : List Str := (pySplitOn '\n' data).dropLast

/-- The per-line contribution of one raw complete line: nothing when it
strips to empty, the `_handle_line` responses otherwise. -/
def lineResponses (pj : Str → Except Str JVal)
    (handle : Str → List (Str × JVal) → HandleOutcome) (raw : Str) :
    List Response :=
  if pyStrip raw = [] then [] else handleLine (pj (pyStrip raw)) handle

/-- Characters up to the first newline. -/
def firstLine (s : Str) : Str := s.takeWhile (fun c => c != '\n')

/-- A rect string in the accepted whitespace/number shape: the nine
`\s*` slots of the coordinate pattern filled with arbitrary whitespace
and the four numbers given as literals. -/
def rectLit (w1 t1 w2 w3 t2 w4 w5 w6 t3 w7 w8 t4 w9 : Str) : Str :=
  '\x7b' :: '\x7b' ::
    (w1 ++ (t1 ++ (w2 ++ (',' ::
      (w3 ++ (t2 ++ (w4 ++ ('\x7d' :: ',' ::
        (w5 ++ ('\x7b' ::
          (w6 ++ (t3 ++ (w7 ++ (',' ::
            (w8 ++ (t4 ++ (w9 ++ ('\x7d' :: '\x7d' :: []))))))))))))))))))

/-- A value rounded to one decimal place, CPython tie handling: the
value `%.1f` renders. -/
def round1 (q : ℚ) : ℚ := (roundHalfEven (10 * q) : ℚ) / 10

section Proofs

/-- A successful split strictly shrinks the buffer. -/
theorem splitFirstNl_rest_lt (buf line rest : Str)
    (h : splitFirstNl buf = some (line, rest)) : rest.length < buf.length := by
  induction buf generalizing line rest with
  | nil => simp [splitFirstNl] at h
  | cons c r ih =>
    simp only [splitFirstNl] at h
    by_cases hc : c = '\n'
    · rw [if_pos hc] at h
      injection h with h2
      injection h2 with h3 h4
      subst h4
      simp
    · rw [if_neg hc] at h
      cases h5 : splitFirstNl r with
      | none => rw [h5] at h; simp at h
      | some p =>
        rw [h5] at h
        injection h with h2
        injection h2 with h3 h4
        subst h4
        have := ih p.1 p.2 (by rw [h5])
        simp only [List.length_cons]
        omega

/-- Splitting a trace splits the run, threading the bridge state. -/
theorem runTrace_append (st : Option Str) (t u : ApiTrace) :
    runTrace st (t ++ u) = runTrace st t ++ runTrace (traceState st t) u := by
  induction t generalizing st with
  | nil => rfl
  | cons e t ih =>
    cases e with
    | mk c r =>
      simp only [List.cons_append, runTrace, List.append_eq]
      rw [ih]
      rfl

/-- The stored key is truthy after a trace exactly when the trace holds
a successful `set_api_key` or the key was truthy already. -/
theorem keyTruthy_traceState (st : Option Str) (t : ApiTrace) :
    keyTruthy (traceState st t) = (t.any isGoodSet || keyTruthy st) := by
  induction t generalizing st with
  | nil => simp [traceState]
  | cons e t ih =>
    cases e with
    | mk c r =>
      have hstep : traceState st ((c, r) :: t) = traceState (bridgeStep st r).1 t := rfl
      rw [hstep, ih]
      cases r with
      | setApiKey k =>
        by_cases hk : pyStrip k = []
        · simp [bridgeStep, hk, isGoodSet]
        · simp [bridgeStep, hk, isGoodSet, keyTruthy]
      | submitPrompt =>
        by_cases hs : keyTruthy st = true
        · simp [bridgeStep, hs, isGoodSet]
        · simp [bridgeStep, hs, isGoodSet]

/-- C1.  Counterexample to the claimed session isolation of the stored
API key: the server hands the one bridge instance to every connection
thread, so after connection 0 stores a non-empty key, a `submit_prompt`
from connection 1 — which never called `set_api_key` — no longer fails
with `No API key found` (it fails with the `not yet supported` message),
unlike the run in which connection 0 never set a key. -/
theorem apiKey_not_isolated_counterexample :
    runTrace none [(0, .setApiKey (str "k")), (1, .submitPrompt)] =
        [(0, .ok true), (1, .error notSupportedMsg)] ∧
      runTrace none [(1, .submitPrompt)] =
        [(1, .error (str "No API key found"))] ∧
      notSupportedMsg ≠ str "No API key found" :=
  ⟨rfl, rfl, by decide⟩

/-- C1 (amended).  The stored API key is shared across connections: in
the serialized request order seen by the single shared bridge, a
`submit_prompt` from any connection fails with `No API key found`
exactly when no earlier request — from any connection — was a
successful `set_api_key`, and with the `not yet supported` message
otherwise. -/
theorem apiKey_shared_across_connections (t : ApiTrace) (c : Nat) :
    (runTrace none (t ++ [(c, ApiReq.submitPrompt)])).getLast? =
      some (c, .error (if t.any isGoodSet then notSupportedMsg
        else str "No API key found")) := by
  rw [runTrace_append]
  have h1 : runTrace (traceState none t) [(c, ApiReq.submitPrompt)] =
      [(c, (bridgeStep (traceState none t) ApiReq.submitPrompt).2)] := rfl
  rw [h1, List.getLast?_concat]
  have h2 : (bridgeStep (traceState none t) ApiReq.submitPrompt).2 =
      .error (if keyTruthy (traceState none t) then notSupportedMsg
        else str "No API key found") := by
    by_cases hs : keyTruthy (traceState none t) = true
    · simp [bridgeStep, hs]
    · simp [bridgeStep, hs]
  rw [h2, keyTruthy_traceState]
  simp only [keyTruthy, Bool.or_false]

/-- C2.  Every line handled by `_handle_line` produces exactly one
response, carrying exactly one of `result`/`error`, whose id echoes the
parsable id of the request (`null` when none was parsable); totality of
`handleLine` models that no failure escapes the per-line boundary. -/
theorem handleLine_exactly_one_response
    (parsed : Except Str JVal)
    (handle : Str → List (Str × JVal) → HandleOutcome) :
    ∃ r : Response, handleLine parsed handle = [r] ∧
      r.result.isSome = !r.error.isSome ∧ r.id = expectedId parsed := by
  cases parsed with
  | error m => exact ⟨⟨.null, none, some (internalErrMsg m)⟩, rfl, rfl, rfl⟩
  | ok v =>
    cases v with
    | null => exact ⟨⟨.null, none, some (str "Invalid JSON payload")⟩, rfl, rfl, rfl⟩
    | bool b => exact ⟨⟨.null, none, some (str "Invalid JSON payload")⟩, rfl, rfl, rfl⟩
    | num q => exact ⟨⟨.null, none, some (str "Invalid JSON payload")⟩, rfl, rfl, rfl⟩
    | str s => exact ⟨⟨.null, none, some (str "Invalid JSON payload")⟩, rfl, rfl, rfl⟩
    | arr xs => exact ⟨⟨.null, none, some (str "Invalid JSON payload")⟩, rfl, rfl, rfl⟩
    | obj fields =>
      simp only [handleLine, expectedId]
      split
      · exact ⟨_, rfl, rfl, rfl⟩
      · split
        · split
          · exact ⟨_, rfl, rfl, rfl⟩
          · exact ⟨_, rfl, rfl, rfl⟩
          · exact ⟨_, rfl, rfl, rfl⟩
        · exact ⟨_, rfl, rfl, rfl⟩
      · exact ⟨_, rfl, rfl, rfl⟩

/-- Splitting never yields the empty list. -/
theorem pySplitOn_ne_nil (sep : Char) (l : Str) : pySplitOn sep l ≠ [] := by
  cases l with
  | nil => simp [pySplitOn]
  | cons c r =>
    simp only [pySplitOn]
    by_cases hc : c = sep
    · simp [hc]
    · rw [if_neg hc]
      cases pySplitOn sep r <;> simp

/-- A buffer with no newline is one (incomplete) segment. -/
theorem pySplitOn_of_splitFirstNl_none (buf : Str)
    (h : splitFirstNl buf = none) : pySplitOn '\n' buf = [buf] := by
  induction buf with
  | nil => rfl
  | cons c r ih =>
    simp only [splitFirstNl] at h
    by_cases hc : c = '\n'
    · rw [if_pos hc] at h; simp at h
    · rw [if_neg hc] at h
      have hr : splitFirstNl r = none := by
        cases hs : splitFirstNl r with
        | none => rfl
        | some p => rw [hs] at h; simp at h
      simp only [pySplitOn, if_neg hc, ih hr]

/-- Extracting the first line is taking the head segment of the split. -/
theorem pySplitOn_of_splitFirstNl_some (buf line rest : Str)
    (h : splitFirstNl buf = some (line, rest)) :
    pySplitOn '\n' buf = line :: pySplitOn '\n' rest := by
  induction buf generalizing line rest with
  | nil => simp [splitFirstNl] at h
  | cons c r ih =>
    simp only [splitFirstNl] at h
    by_cases hc : c = '\n'
    · rw [if_pos hc] at h
      injection h with h2
      injection h2 with h3 h4
      subst h3; subst h4; subst hc
      rfl
    · rw [if_neg hc] at h
      cases hs : splitFirstNl r with
      | none => rw [hs] at h; simp at h
      | some p =>
        rw [hs] at h
        simp only [Option.map] at h
        injection h with h2
        injection h2 with h3 h4
        subst h4
        have := ih p.1 p.2 (by rw [hs])
        simp only [pySplitOn, if_neg hc, this, ← h3]

/-- The drain loop with enough fuel is the flat map of the per-line
contributions over the complete lines. -/
theorem drainBufferGo_spec (pj : Str → Except Str JVal)
    (handle : Str → List (Str × JVal) → HandleOutcome) (fuel : Nat)
    (buf : Str) (hfuel : buf.length ≤ fuel) :
    drainBufferGo pj handle fuel buf =
      (completeLines buf).flatMap (lineResponses pj handle) := by
  induction fuel generalizing buf with
  | zero =>
    have hb : buf = [] := by
      cases buf with
      | nil => rfl
      | cons c r => simp at hfuel
    subst hb
    rfl
  | succ fuel ih =>
    cases hs : splitFirstNl buf with
    | none =>
      have h1 := pySplitOn_of_splitFirstNl_none buf hs
      simp only [drainBufferGo, hs, completeLines, h1, List.dropLast_single,
        List.flatMap_nil]
    | some p =>
      obtain ⟨line, rest⟩ := p
      have hlt := splitFirstNl_rest_lt buf line rest hs
      have h1 := pySplitOn_of_splitFirstNl_some buf line rest hs
      have h2 : completeLines buf = line :: completeLines rest := by
        simp only [completeLines, h1]
        exact List.dropLast_cons_of_ne_nil (pySplitOn_ne_nil '\n' rest)
      simp only [drainBufferGo, hs, h2, List.flatMap_cons]
      rw [ih rest (by omega)]
      rfl

/-- C10.  The per-connection loop responds per complete line: a line
that strips to whitespace-only/empty is silently skipped (contributes no
response at all), while any non-JSON line among the remaining ones gets
exactly one error response with a `null` id; the closing conjunct runs
a stream holding one whitespace-only line and one undecodable line. -/
theorem blank_lines_skipped :
    (∀ pj handle data, drainBuffer pj handle data =
        (completeLines data).flatMap (lineResponses pj handle)) ∧
      (∀ pj handle raw, pyStrip raw = [] → lineResponses pj handle raw = []) ∧
      (∀ m handle, handleLine (.error m) handle =
        [⟨.null, none, some (internalErrMsg m)⟩]) ∧
      drainBuffer (fun _ => .error (str "boom")) (fun _ _ => .ok .null false)
          (str "  \x09\nnotjson\n") =
        [⟨.null, none, some (internalErrMsg (str "boom"))⟩] := by
  refine ⟨?_, ?_, ?_, ?_⟩
  · intro pj handle data
    exact drainBufferGo_spec pj handle data.length data le_rfl
  · intro pj handle raw h
    simp [lineResponses, h]
  · intro m handle
    rfl
  · rfl

/-- Witness for C10 at a concrete whitespace-only line. -/
theorem blank_lines_skipped_witness :
    pyStrip (str " \x09 ") = [] ∧
      lineResponses (fun _ => .error (str "x")) (fun _ _ => .ok .null false)
        (str " \x09 ") = [] :=
  ⟨by decide, blank_lines_skipped.2.1 _ _ _ (by decide)⟩

/-- The loop over candidate hostnames returns the first connectable
candidate. -/
theorem firstConnect_eq_find (connects : Str → Bool) (l : List Str) :
    firstConnect connects l = l.find? connects := by
  induction l with
  | nil => rfl
  | cons h t ih =>
    simp only [firstConnect, List.find?]
    by_cases hc : connects h = true
    · simp [hc]
    · simp [hc, ih]

/-- The dedup loop keeps a subsequence of the input. -/
theorem pyDedupGo_sublist (seen : List Str) (l : List Str) :
    (pyDedupGo seen l).Sublist l := by
  induction l generalizing seen with
  | nil => simp [pyDedupGo]
  | cons h t ih =>
    simp only [pyDedupGo]
    by_cases hm : h ∈ seen
    · rw [if_pos hm]
      exact (ih seen).cons h
    · rw [if_neg hm]
      exact (ih (h :: seen)).cons₂ h

/-- Membership in the dedup output: everything not already seen. -/
theorem mem_pyDedupGo (seen : List Str) (l : List Str) (a : Str) :
    a ∈ pyDedupGo seen l ↔ a ∈ l ∧ a ∉ seen := by
  induction l generalizing seen with
  | nil => simp [pyDedupGo]
  | cons h t ih =>
    simp only [pyDedupGo]
    by_cases hm : h ∈ seen
    · rw [if_pos hm]
      rw [ih seen]
      constructor
      · rintro ⟨ht, hs⟩
        exact ⟨List.mem_cons_of_mem h ht, hs⟩
      · rintro ⟨ht, hs⟩
        rcases List.mem_cons.mp ht with rfl | ht2
        · exact absurd hm hs
        · exact ⟨ht2, hs⟩
    · rw [if_neg hm]
      simp only [List.mem_cons, ih (h :: seen), List.mem_cons]
      constructor
      · rintro (rfl | ⟨ht, hs⟩)
        · exact ⟨Or.inl rfl, hm⟩
        · exact ⟨Or.inr ht, fun hz => hs (Or.inr hz)⟩
      · rintro ⟨rfl | ht, hs⟩
        · exact Or.inl rfl
        · by_cases hz : a = h
          · exact Or.inl hz
          · exact Or.inr ⟨ht, fun hz2 => hz2.elim hz hs⟩

/-- The dedup output has no duplicates. -/
theorem pyDedupGo_nodup (seen : List Str) (l : List Str) :
    (pyDedupGo seen l).Nodup := by
  induction l generalizing seen with
  | nil => simp [pyDedupGo]
  | cons h t ih =>
    simp only [pyDedupGo]
    by_cases hm : h ∈ seen
    · rw [if_pos hm]; exact ih seen
    · rw [if_neg hm]
      refine List.nodup_cons.mpr ⟨?_, ih (h :: seen)⟩
      intro hmem
      exact ((mem_pyDedupGo (h :: seen) t h).mp hmem).2 (List.mem_cons_self h _)

/-- C7.  For each local connection the remote target resolution tries
the tunnel hostname candidates in order — the directly derived hostname
first, then the device-listing query's hostnames, deduplicated with
order preserved (a duplicate-free subsequence covering the same
hostnames) — stopping at the first that connects; the USB-multiplexed
lookup is consulted only when no candidate connects and the library is
available; and `handle_client` closes the local connection without
relaying exactly when no strategy yields a socket. -/
theorem forwarder_strategy_order (udid : Str) (env : FwdEnv) :
    (connectRemote udid env).1 =
        (match (coredeviceCandidates udid env.devicectlHosts).find? env.connects with
         | some h => some (.coredevice h)
         | none =>
           match env.usbmux with
           | .ok => some .usbmux
           | _ => none) ∧
      (coredeviceCandidates udid env.devicectlHosts).Sublist
        (derivedHost udid :: env.devicectlHosts) ∧
      (coredeviceCandidates udid env.devicectlHosts).Nodup ∧
      (∀ a, a ∈ coredeviceCandidates udid env.devicectlHosts ↔
        a ∈ derivedHost udid :: env.devicectlHosts) ∧
      (handleClient udid env = .dropped ↔ (connectRemote udid env).1 = none) := by
  refine ⟨?_, ?_, ?_, ?_, ?_⟩
  · show (connectRemote udid env).1 = _
    simp only [connectRemote, firstConnect_eq_find]
    cases (coredeviceCandidates udid env.devicectlHosts).find? env.connects with
    | some h => rfl
    | none => cases env.usbmux <;> rfl
  · exact pyDedupGo_sublist [] _
  · exact pyDedupGo_nodup [] _
  · intro a
    rw [coredeviceCandidates, pyDedup, mem_pyDedupGo]
    simp
  · unfold handleClient
    cases (connectRemote udid env).1 with
    | none => simp
    | some r => simp

/-- Escaping never erases a non-empty chunk. -/
theorem escapeAdbText_ne_nil (ch : Str) (h : ch ≠ []) :
    escapeAdbText ch ≠ [] := by
  cases ch with
  | nil => exact absurd rfl h
  | cons c r =>
    show (if c = ' ' || c = '\x09' then str "%s"
      else if isAdbSpecial c then ['\\', c] else [c]) ++ r.flatMap _ ≠ []
    by_cases h1 : (c = ' ' || c = '\x09') = true
    · rw [if_pos h1]; simp [str]
    · rw [if_neg h1]
      by_cases h2 : isAdbSpecial c = true
      · rw [if_pos h2]; simp
      · rw [if_neg h2]; simp

/-- Chunks of a positive size are never empty. -/
theorem chunkTextGo_ne_nil (fuel size : Nat) (l : Str) (hsize : 1 ≤ size) :
    ∀ ch ∈ chunkTextGo fuel size l, ch ≠ [] := by
  induction fuel generalizing l with
  | zero => intro ch h; simp [chunkTextGo] at h
  | succ fuel ih =>
    intro ch h
    cases l with
    | nil => simp [chunkTextGo] at h
    | cons c r =>
      simp only [chunkTextGo, List.mem_cons] at h
      rcases h with rfl | h
      · cases size with
        | zero => omega
        | succ n => simp [List.take]
      · exact ih (r.drop (size - 1)) ch h

/-- The chunk loop over any list of non-empty chunks sends exactly one
text payload per chunk (the emptiness guard never fires). -/
theorem lineActs_go (cs : List Str) (h : ∀ ch ∈ cs, ch ≠ []) :
    (cs.flatMap fun ch =>
      let escaped := escapeAdbText ch
      if escaped = [] then [] else [Act.text escaped]) =
      cs.map (fun ch => Act.text (escapeAdbText ch)) := by
  induction cs with
  | nil => rfl
  | cons ch cs ih =>
    simp only [List.flatMap_cons, List.map_cons]
    rw [if_neg (escapeAdbText_ne_nil ch (h ch (List.mem_cons_self ch cs)))]
    rw [ih (fun x hx => h x (List.mem_cons_of_mem ch hx))]
    rfl

/-- The chunk loop of one line sends exactly one text payload per chunk. -/
theorem lineActs_eq_map (l : Str) :
    lineActs l = (chunkText 80 l).map (fun ch => Act.text (escapeAdbText ch)) := by
  unfold lineActs chunkText
  exact lineActs_go _ (chunkTextGo_ne_nil l.length 80 l (by omega))

/-- Joining a non-singleton head of the line loop. -/
theorem intercalateKey_cons_cons (a b : List Act) (t : List (List Act)) :
    [Act.key 66].intercalate (a :: b :: t) =
      a ++ Act.key 66 :: [Act.key 66].intercalate (b :: t) := by
  simp [List.intercalate, List.intersperse]

/-- The indexed line loop of `_input_text` is the chunk-action lists of
the lines joined with key event 66. -/
theorem inputLinesActs_intercalate (ls : List Str) :
    inputLinesActs ls =
      [Act.key 66].intercalate (ls.map (fun l =>
        (chunkText 80 l).map (fun ch => Act.text (escapeAdbText ch)))) := by
  induction ls with
  | nil => rfl
  | cons l rest ih =>
    cases rest with
    | nil => simp [inputLinesActs, List.intercalate, lineActs_eq_map]
    | cons l2 rest2 =>
      simp only [List.map_cons] at ih ⊢
      rw [intercalateKey_cons_cons, ← ih]
      simp only [inputLinesActs, lineActs_eq_map]

/-- The whole `_input_text` body in joined form (the empty-text
short-circuit agrees with the join over the single empty line). -/
theorem inputTextActs_intercalate (t : Str) :
    inputTextActs t =
      [Act.key 66].intercalate ((pySplitOn '\n' t).map (fun l =>
        (chunkText 80 l).map (fun ch => Act.text (escapeAdbText ch)))) := by
  unfold inputTextActs
  by_cases h : t = []
  · subst h; rfl
  · rw [if_neg h, inputLinesActs_intercalate]

/-- C4 (amended).  `enter_text` first taps the rounded center of the
rect, pauses, then injects the text with the lines' escaped 80-character
chunks joined by a newline key event (none between the last line and
what follows), and finally sends one unconditional key event 66 after
the injection — so a trailing key event 66 follows the final line. -/
theorem enterText_actions (coordinate text : Str) (x y w h : ℚ)
    (hp : parseCoordinateRect coordinate = .ok (x, y, w, h)) :
    enterTextActs coordinate text =
      .ok (Act.tap (centerOfRect x w) (centerOfRect y h) :: Act.sleep ::
        ([Act.key 66].intercalate ((pySplitOn '\n' text).map (fun l =>
          (chunkText 80 l).map (fun ch => Act.text (escapeAdbText ch)))) ++
         [Act.key 66])) := by
  unfold enterTextActs
  rw [hp, inputTextActs_intercalate]
  rfl

/-- Witness for C4's amended theorem at a concrete rect and two-line
text. -/
theorem enterText_actions_witness :
    parseCoordinateRect (str "\x7b\x7b0, 0\x7d, \x7b2, 2\x7d\x7d") =
        .ok (0, 0, 2, 2) ∧
      enterTextActs (str "\x7b\x7b0, 0\x7d, \x7b2, 2\x7d\x7d") (str "ab\nc") =
        .ok [Act.tap 1 1, Act.sleep, Act.text (str "ab"), Act.key 66,
          Act.text (str "c"), Act.key 66] := by
  have hp : parseCoordinateRect (str "\x7b\x7b0, 0\x7d, \x7b2, 2\x7d\x7d") =
      .ok (0, 0, 2, 2) := by with_unfolding_all decide
  refine ⟨hp, ?_⟩
  rw [enterText_actions (str "\x7b\x7b0, 0\x7d, \x7b2, 2\x7d\x7d") (str "ab\nc")
    0 0 2 2 hp]
  with_unfolding_all decide

/-- C4.  Counterexample to "no newline key event is sent after the final
line": for a single-line text the claim forbids any key event 66, yet
the `enter_text` handler sends one unconditionally after `_input_text`
returns (line 342 of the bridge). -/
theorem enterText_trailing_key_counterexample :
    enterTextActs (str "\x7b\x7b0, 0\x7d, \x7b2, 2\x7d\x7d") (str "a") =
        .ok [Act.tap 1 1, Act.sleep, Act.text (str "a"), Act.key 66] ∧
      Act.key 66 ∈ [Act.tap 1 1, Act.sleep, Act.text (str "a"), Act.key 66] := by
  constructor
  · with_unfolding_all decide
  · decide

/-- C6.  `tap_element`: a count below 1 is rejected with a validation
error before any device action; with `longPress` exactly one long-press
gesture (a 550 ms point swipe) is issued at the rect's rounded center
whatever the count, and the result reports count 1 with the flag; without
`longPress` exactly `count` taps are issued and the result reports the
supplied count. -/
theorem tapElement_validation_and_gestures (coordinate : Str) (count : ℤ)
    (longPress : Bool) (tree : Str) :
    (count < 1 → tapElementRun coordinate count longPress tree =
      (.error (str "count must be >= 1"), [])) ∧
      (∀ x y w h : ℚ, parseCoordinateRect coordinate = .ok (x, y, w, h) →
        1 ≤ count →
        tapElementRun coordinate count longPress tree =
          (if longPress then
            (.ok ⟨coordinate, 1, true, tree⟩,
              [.swipe (centerOfRect x w) (centerOfRect y h)
                (centerOfRect x w) (centerOfRect y h) 550])
          else
            (.ok ⟨coordinate, count, false, tree⟩,
              List.replicate count.toNat
                (.tap (centerOfRect x w) (centerOfRect y h))))) := by
  constructor
  · intro h
    unfold tapElementRun
    rw [if_pos h]
  · intro x y w h hp hc
    unfold tapElementRun
    rw [if_neg (by omega), hp]

/-- Witness for C6 at a concrete rect: `longPress` with count 5 issues
one long press and reports count 1; count 3 without `longPress` issues
three taps; count 0 is rejected with no action. -/
theorem tapElement_witness :
    tapElementRun (str "\x7b\x7b0, 0\x7d, \x7b2, 2\x7d\x7d") 5 true (str "T") =
        (.ok ⟨str "\x7b\x7b0, 0\x7d, \x7b2, 2\x7d\x7d", 1, true, str "T"⟩,
          [.swipe 1 1 1 1 550]) ∧
      tapElementRun (str "\x7b\x7b0, 0\x7d, \x7b2, 2\x7d\x7d") 3 false (str "T") =
        (.ok ⟨str "\x7b\x7b0, 0\x7d, \x7b2, 2\x7d\x7d", 3, false, str "T"⟩,
          [.tap 1 1, .tap 1 1, .tap 1 1]) ∧
      tapElementRun (str "\x7b\x7b0, 0\x7d, \x7b2, 2\x7d\x7d") 0 false (str "T") =
        (.error (str "count must be >= 1"), []) := by
  have hp : parseCoordinateRect (str "\x7b\x7b0, 0\x7d, \x7b2, 2\x7d\x7d") =
      .ok ((0 : ℚ), (0 : ℚ), (2 : ℚ), (2 : ℚ)) := by with_unfolding_all decide
  refine ⟨?_, ?_, ?_⟩
  · rw [(tapElement_validation_and_gestures _ 5 true _).2 0 0 2 2 hp (by decide)]
    with_unfolding_all decide
  · rw [(tapElement_validation_and_gestures _ 3 false _).2 0 0 2 2 hp (by decide)]
    with_unfolding_all decide
  · exact (tapElement_validation_and_gestures _ 0 false _).1 (by decide)

/-- The empty identifier never matches the package pattern. -/
theorem matchesPackageRe_nil : matchesPackageRe [] = false := rfl

/-- C5.  `open_app`: an identifier that fails the package pattern is
rejected with a validation error and zero device interactions (strictly
before any launch attempt); for a matching identifier whose launch
succeeds, when the foreground re-query reports a package different from
the requested one the call fails with the error naming that package,
after only the launch and the re-query. -/
theorem openApp_validation_and_foreground (bi pn : Option Str)
    (launch : LaunchOutcome) (fg : Option Str) (tree : Str) :
    (matchesPackageRe (pyStrip (firstTruthy bi pn)) = false →
      openAppRun bi pn launch fg tree =
        (.error (if pyStrip (firstTruthy bi pn) = [] then
            str "bundle_identifier is required"
          else invalidPackageMsg (pyStrip (firstTruthy bi pn))), [])) ∧
      (∀ f, matchesPackageRe (pyStrip (firstTruthy bi pn)) = true →
        launch = .ok → fg = some f → f ≠ pyStrip (firstTruthy bi pn) →
        openAppRun bi pn launch fg tree =
          (.error (foregroundErrMsg (pyStrip (firstTruthy bi pn)) f),
            [.launch (pyStrip (firstTruthy bi pn)), .queryForeground])) := by
  constructor
  · intro h
    unfold openAppRun
    by_cases hz : pyStrip (firstTruthy bi pn) = []
    · rw [if_pos hz, if_pos hz]
    · rw [if_neg hz, if_pos h, if_neg hz]
  · intro f h hl hf hne
    unfold openAppRun
    have hz : pyStrip (firstTruthy bi pn) ≠ [] := by
      intro hz
      rw [hz, matchesPackageRe_nil] at h
      exact Bool.false_ne_true h
    rw [if_neg hz, if_neg (by simp [h]), hl, hf]
    simp [hne]

/-- Witness for C5: the identifier `not a package` is rejected with no
device interaction; launching `com.example.app` with foreground
`com.other.app` fails naming the latter. -/
theorem openApp_witness :
    openAppRun (some (str "not a package")) none .ok none (str "T") =
        (.error (invalidPackageMsg (str "not a package")), []) ∧
      openAppRun (some (str "com.example.app")) none .ok
          (some (str "com.other.app")) (str "T") =
        (.error (foregroundErrMsg (str "com.example.app")
            (str "com.other.app")),
          [.launch (str "com.example.app"), .queryForeground]) := by
  constructor
  · rw [(openApp_validation_and_foreground (some (str "not a package")) none
      .ok none (str "T")).1 (by decide)]
    decide
  · rw [(openApp_validation_and_foreground (some (str "com.example.app")) none
      .ok (some (str "com.other.app")) (str "T")).2 (str "com.other.app")
      (by decide) rfl rfl (by decide)]
    decide

/-- The accumulator-style `for child in ...` loop appends exactly the
declarative pre-order rendering, for every forest below the given size
bound. -/
theorem walkChildren_spec (n : Nat) : ∀ cs : List XNode, sizeOf cs ≤ n →
    ∀ d ls, walkChildren cs d ls = ls ++ specChildrenLines cs d := by
  induction n using Nat.strong_induction_on with
  | _ n ih =>
    intro cs hcs d ls
    cases cs with
    | nil => simp [walkChildren, specChildrenLines]
    | cons c cs2 =>
      cases c with
      | mk tag attrs children =>
        have hsz1 : sizeOf (XNode.mk tag attrs children :: cs2) =
            1 + sizeOf (XNode.mk tag attrs children) + sizeOf cs2 := by
          simp
        have hsz2 : sizeOf (XNode.mk tag attrs children) =
            1 + sizeOf tag + sizeOf attrs + sizeOf children := by
          simp
        have hch : sizeOf children < n := by omega
        have hcs2 : sizeOf cs2 < n := by omega
        have hnode : walkNode (XNode.mk tag attrs children) d ls =
            ls ++ specNodeLines (XNode.mk tag attrs children) d := by
          unfold walkNode specNodeLines
          by_cases ht : tag = str "node"
          · rw [if_pos ht, if_pos ht,
              ih (sizeOf children) hch children le_rfl (d + 1)
                (ls ++ [renderLine attrs d])]
            simp
          · rw [if_neg ht, if_neg ht]
            exact ih (sizeOf children) hch children le_rfl d ls
        show walkChildren cs2 d (walkNode (XNode.mk tag attrs children) d ls) = _
        rw [hnode, ih (sizeOf cs2) hcs2 cs2 le_rfl d
          (ls ++ specNodeLines (XNode.mk tag attrs children) d)]
        simp [specChildrenLines]

/-- Reading up to a newline recovers a newline-free prefix. -/
theorem takeWhile_append_newline (a b : Str)
    (ha : ∀ c ∈ a, (c != '\n') = true) :
    List.takeWhile (fun c => c != '\n') (a ++ '\n' :: b) = a := by
  induction a with
  | nil => simp [List.takeWhile]
  | cons c r ihr =>
    simp only [List.cons_append, List.takeWhile]
    rw [ha c (List.mem_cons_self c r)]
    simp only [List.cons.injEq, true_and]
    exact ihr (fun x hx => ha x (List.mem_cons_of_mem c hx))

/-- Newline-joining a non-singleton head. -/
theorem intercalateNl_cons_cons (a b : Str) (t : List Str) :
    List.intercalate ['\n'] (a :: b :: t) =
      a ++ '\n' :: List.intercalate ['\n'] (b :: t) := by
  simp [List.intercalate, List.intersperse]

/-- C8.  The hierarchy text opens with the literal `Hierarchy` line, and
the remaining lines are the depth-first pre-order rendering of the tree:
one line per `node` element, indented two spaces per depth level, with
the fields joined by `, ` in the fixed order and omission rules of
`nodeParts` (class name; non-empty label, JSON-quoted; description only
when present and distinct from the label; non-empty identifier; frame
only when the bounds parsed; `clickable: true` exactly when the
attribute is the string `true`); the closing conjunct evaluates the
field rules on a concrete node. -/
theorem formatTree_header_and_preorder :
    (∀ root : XNode, formatTree root =
        List.intercalate ['\n'] (str "Hierarchy" :: specNodeLines root 0)) ∧
      (∀ root : XNode, firstLine (formatTree root) = str "Hierarchy") ∧
      nodeParts [(str "class", str "android.widget.TextView"),
          (str "text", str "Hello "), (str "content-desc", str "Hello"),
          (str "resource-id", str "com.app:id/txt"),
          (str "bounds", str "[10,20][110,60]"), (str "clickable", str "true")] =
        [str "TextView", str "label: \"Hello\"",
          str "identifier: \"com.app:id/txt\"",
          str "frame: \x7b\x7b10.0, 20.0\x7d, \x7b100.0, 40.0\x7d\x7d",
          str "clickable: true"] := by
  have hmain : ∀ root : XNode, formatTree root =
      List.intercalate ['\n'] (str "Hierarchy" :: specNodeLines root 0) := by
    intro root
    unfold formatTree
    cases root with
    | mk tag attrs children =>
      have h1 : walkNode (XNode.mk tag attrs children) 0 [str "Hierarchy"] =
          [str "Hierarchy"] ++ specNodeLines (XNode.mk tag attrs children) 0 := by
        unfold walkNode specNodeLines
        by_cases ht : tag = str "node"
        · rw [if_pos ht, if_pos ht,
            walkChildren_spec (sizeOf children) children le_rfl 1
              ([str "Hierarchy"] ++ [renderLine attrs 0])]
          simp
        · rw [if_neg ht, if_neg ht]
          exact walkChildren_spec (sizeOf children) children le_rfl 0
            [str "Hierarchy"]
      rw [h1]
      rfl
  refine ⟨hmain, ?_, by with_unfolding_all decide⟩
  intro root
  rw [firstLine, hmain root]
  have hh : ∀ c ∈ str "Hierarchy", (c != '\n') = true := by decide
  cases hs : specNodeLines root 0 with
  | nil => decide
  | cons a t =>
    rw [intercalateNl_cons_cons]
    exact takeWhile_append_newline (str "Hierarchy") _ hh

/-- Two characters on which a boolean predicate disagrees differ. -/
theorem ne_of_pred (p : Char → Bool) (a b : Char) (ha : p a = true)
    (hb : p b = false) : a ≠ b := by
  intro h
  rw [h, hb] at ha
  exact Bool.false_ne_true ha

/-- Code point of a digit character. -/
theorem digitChar_toNat (m : Nat) (h : m < 10) :
    (digitChar m).toNat = 48 + m := by
  interval_cases m <;> decide

/-- Digit characters satisfy the digit predicate. -/
theorem isDigitChar_digitChar (m : Nat) (h : m < 10) :
    isDigitChar (digitChar m) = true := by
  interval_cases m <;> decide

/-- Digits are not whitespace. -/
theorem digit_not_space (c : Char) (h : isDigitChar c = true) :
    isPySpace c = false := by
  simp only [isDigitChar, Bool.and_eq_true, decide_eq_true_eq] at h
  simp only [isPySpace, Bool.or_eq_false_iff, decide_eq_false_iff_not]
  omega

/-- A span over `l ++ r` with `l` all-true and the head of `r` false
takes exactly `l`. -/
theorem takeWhile_append_headFalse (p : Char → Bool) (l r : Str)
    (hl : ∀ c ∈ l, p c = true) (hr : HeadFalse p r) :
    (l ++ r).takeWhile p = l := by
  induction l with
  | nil =>
    cases r with
    | nil => rfl
    | cons c cs => simp [List.takeWhile, hr c cs rfl]
  | cons c l2 ih =>
    simp only [List.cons_append, List.takeWhile,
      hl c (List.mem_cons_self c l2)]
    simp only [List.cons.injEq, true_and]
    exact ih (fun x hx => hl x (List.mem_cons_of_mem c hx))

/-- The matching drop over `l ++ r` leaves exactly `r`. -/
theorem dropWhile_append_headFalse (p : Char → Bool) (l r : Str)
    (hl : ∀ c ∈ l, p c = true) (hr : HeadFalse p r) :
    (l ++ r).dropWhile p = r := by
  induction l with
  | nil =>
    cases r with
    | nil => rfl
    | cons c cs => simp [List.dropWhile, hr c cs rfl]
  | cons c l2 ih =>
    simp only [List.cons_append, List.dropWhile,
      hl c (List.mem_cons_self c l2)]
    exact ih (fun x hx => hl x (List.mem_cons_of_mem c hx))

/-- `spanDigits` splits a digit run followed by a non-digit head. -/
theorem spanDigits_append (l r : Str) (hl : ∀ c ∈ l, isDigitChar c = true)
    (hr : HeadFalse isDigitChar r) : spanDigits (l ++ r) = (l, r) := by
  unfold spanDigits
  rw [takeWhile_append_headFalse isDigitChar l r hl hr,
    dropWhile_append_headFalse isDigitChar l r hl hr]

/-- Whitespace skipping consumes a whitespace run up to a non-space
head. -/
theorem skipWs_append (w r : Str) (hw : WsOk w)
    (hr : HeadFalse isPySpace r) : skipWs (w ++ r) = r :=
  dropWhile_append_headFalse isPySpace w r hw hr

/-- Skipping is the identity on a non-space head. -/
theorem skipWs_headFalse (r : Str) (hr : HeadFalse isPySpace r) :
    skipWs r = r := by
  have h := skipWs_append [] r (by intro c hc; cases hc) hr
  simpa using h

/-- Stripping is the identity when both ends are non-space. -/
theorem pyStrip_eq_self (l : Str) (h1 : HeadFalse isPySpace l)
    (h2 : HeadFalse isPySpace l.reverse) : pyStrip l = l := by
  unfold pyStrip
  rw [show l.dropWhile isPySpace = l from skipWs_headFalse l h1]
  rw [show l.reverse.dropWhile isPySpace = l.reverse from
    skipWs_headFalse l.reverse h2]
  exact List.reverse_reverse l

/-- The digit accumulator prepends to any accumulator. -/
theorem natToDigitsGo_append (fuel : Nat) : ∀ n acc,
    natToDigitsGo fuel n acc = natToDigitsGo fuel n [] ++ acc := by
  induction fuel with
  | zero => intro n acc; rfl
  | succ fuel ih =>
    intro n acc
    by_cases hn : n = 0
    · simp [natToDigitsGo, hn]
    · simp only [natToDigitsGo, if_neg hn]
      rw [ih (n / 10) (digitChar (n % 10) :: acc),
        ih (n / 10) [digitChar (n % 10)]]
      simp

/-- Every character the digit loop emits is a digit. -/
theorem natToDigitsGo_all_digit (fuel : Nat) : ∀ n acc,
    (∀ c ∈ acc, isDigitChar c = true) →
    ∀ c ∈ natToDigitsGo fuel n acc, isDigitChar c = true := by
  induction fuel with
  | zero => intro n acc hacc; exact hacc
  | succ fuel ih =>
    intro n acc hacc
    by_cases hn : n = 0
    · simp only [natToDigitsGo, if_pos hn]; exact hacc
    · simp only [natToDigitsGo, if_neg hn]
      refine ih (n / 10) (digitChar (n % 10) :: acc) ?_
      intro c hc
      rcases List.mem_cons.mp hc with rfl | hc2
      · exact isDigitChar_digitChar (n % 10) (Nat.mod_lt n (by omega))
      · exact hacc c hc2

/-- With enough fuel on a positive input the digit loop is non-empty. -/
theorem natToDigitsGo_ne_nil (fuel n : Nat) (hn : n ≠ 0) (hf : 1 ≤ fuel) :
    natToDigitsGo fuel n [] ≠ [] := by
  cases fuel with
  | zero => omega
  | succ fuel =>
    simp only [natToDigitsGo, if_neg hn]
    rw [natToDigitsGo_append fuel (n / 10) [digitChar (n % 10)]]
    simp

/-- With enough fuel the digit loop computes the decimal digits: folding
them back gives the number. -/
theorem digitsVal_natToDigitsGo (fuel : Nat) : ∀ n, n ≤ fuel →
    digitsVal (natToDigitsGo fuel n []) = n := by
  induction fuel with
  | zero =>
    intro n hn
    interval_cases n
    rfl
  | succ fuel ih =>
    intro n hn
    by_cases hzero : n = 0
    · simp [natToDigitsGo, hzero, digitsVal]
    · simp only [natToDigitsGo, if_neg hzero]
      rw [natToDigitsGo_append fuel (n / 10) [digitChar (n % 10)]]
      unfold digitsVal
      rw [List.foldl_append]
      have h1 : digitsVal (natToDigitsGo fuel (n / 10) []) = n / 10 :=
        ih (n / 10) (by omega)
      unfold digitsVal at h1
      rw [h1]
      simp only [List.foldl_cons, List.foldl_nil]
      rw [digitChar_toNat (n % 10) (Nat.mod_lt n (by omega))]
      omega

/-- The decimal digits of `n` fold back to `n`. -/
theorem digitsVal_natToDigits (n : Nat) : digitsVal (natToDigits n) = n := by
  unfold natToDigits
  by_cases hn : n = 0
  · subst hn; decide
  · rw [if_neg hn]
    exact digitsVal_natToDigitsGo n n le_rfl

/-- The digit rendering of `n` is a non-empty digit run. -/
theorem natToDigits_digitsOk (n : Nat) : DigitsOk (natToDigits n) := by
  unfold natToDigits
  by_cases hn : n = 0
  · subst hn; exact ⟨by decide, by decide⟩
  · rw [if_neg hn]
    exact ⟨natToDigitsGo_ne_nil n n hn (by omega),
      natToDigitsGo_all_digit n n [] (by intro c hc; cases hc)⟩

/-- Parsing one number literal at the head of the input consumes exactly
the literal and yields its value: the regex number syntax
`-?\d+(?:\.\d+)?` is parsed correctly at any non-number boundary. -/
theorem parseNum_lit (sg : Bool) (ds : Str) (fr : Option Str) (rest : Str)
    (hds : DigitsOk ds) (hfr : ∀ f, fr = some f → DigitsOk f)
    (hrest : NumBoundary rest) :
    parseNum (numLit sg ds fr ++ rest) = some (numVal sg ds fr, rest) := by
  obtain ⟨hds1, hds2⟩ := hds
  cases fr with
  | none =>
    have hspan : spanDigits (ds ++ rest) = (ds, rest) :=
      spanDigits_append ds rest hds2 (fun c cs h => (hrest c cs h).1)
    have hlit : numLit sg ds none ++ rest =
        (if sg then ['-'] else []) ++ (ds ++ rest) := by
      simp [numLit]
    rw [hlit]
    cases sg with
    | true =>
      cases rest with
      | nil =>
        simp only [List.append_nil] at hspan ⊢
        simp [parseNum, hspan, hds1, numVal]
      | cons c cs =>
        have hb := hrest c cs rfl
        simp [parseNum, hspan, hds1, numVal, hb.1, hb.2]
    | false =>
      cases ds with
      | nil => exact absurd rfl hds1
      | cons d ds2 =>
        have hd : ¬(d = '-') :=
          ne_of_pred isDigitChar d '-' (hds2 d (List.mem_cons_self d ds2))
            (by decide)
        simp only [List.cons_append, List.append_nil] at hspan
        cases rest with
        | nil =>
          rw [List.append_nil] at hspan
          simp [parseNum, hd, hspan, hds1, numVal]
        | cons c cs =>
          have hb := hrest c cs rfl
          simp [parseNum, hd, hspan, hds1, numVal, hb.1, hb.2]
  | some f =>
    have hf := hfr f rfl
    have hspanf : spanDigits (f ++ rest) = (f, rest) :=
      spanDigits_append f rest hf.2 (fun c cs h => (hrest c cs h).1)
    have hspan : spanDigits (ds ++ '.' :: (f ++ rest)) =
        (ds, '.' :: (f ++ rest)) :=
      spanDigits_append ds ('.' :: (f ++ rest)) hds2
        (by intro c cs h; injection h with h1 h2; subst h1; decide)
    have hlit : numLit sg ds (some f) ++ rest =
        (if sg then ['-'] else []) ++ (ds ++ '.' :: (f ++ rest)) := by
      simp [numLit]
    rw [hlit]
    cases sg with
    | true => simp [parseNum, hspan, hds1, hspanf, hf.1, numVal]
    | false =>
      cases ds with
      | nil => exact absurd rfl hds1
      | cons d ds2 =>
        have hd : ¬(d = '-') :=
          ne_of_pred isDigitChar d '-' (hds2 d (List.mem_cons_self d ds2))
            (by decide)
        simp only [List.cons_append] at hspan
        simp [parseNum, hd, hspan, hds1, hspanf, hf.1, numVal]

/-- Whitespace is never a digit. -/
theorem space_not_digit (c : Char) (h : isPySpace c = true) :
    isDigitChar c = false := by
  simp only [isPySpace, Bool.or_eq_true, decide_eq_true_eq] at h
  simp only [isDigitChar, Bool.and_eq_false_iff, decide_eq_false_iff_not]
  omega

/-- A number literal starts with a sign or a digit, never whitespace. -/
theorem numLit_cons (sg : Bool) (ds : Str) (fr : Option Str)
    (hds : DigitsOk ds) :
    ∃ c0 t, numLit sg ds fr = c0 :: t ∧ isPySpace c0 = false := by
  cases sg with
  | true => exact ⟨'-', _, rfl, by decide⟩
  | false =>
    cases ds with
    | nil => exact absurd rfl hds.1
    | cons d ds2 =>
      exact ⟨d, ds2 ++ (match fr with
          | some f => '.' :: f
          | none => []),
        by simp [numLit],
        digit_not_space d (hds.2 d (List.mem_cons_self d ds2))⟩

/-- Anything continuing with a number literal has a non-space head. -/
theorem numLit_append_headFalse (sg : Bool) (ds : Str) (fr : Option Str)
    (r : Str) (hds : DigitsOk ds) :
    HeadFalse isPySpace (numLit sg ds fr ++ r) := by
  obtain ⟨c0, t, he, hc0⟩ := numLit_cons sg ds fr hds
  intro c cs h
  rw [he] at h
  simp only [List.cons_append] at h
  injection h with h1 h2
  subst h1
  exact hc0

/-- Whitespace followed by a non-number character is a number boundary. -/
theorem numBoundary_ws_cons (w : Str) (c : Char) (r : Str) (hw : WsOk w)
    (hc1 : isDigitChar c = false) (hc2 : c ≠ '.') :
    NumBoundary (w ++ c :: r) := by
  intro x xs h
  cases w with
  | nil =>
    simp only [List.nil_append] at h
    injection h with h1 h2
    subst h1
    exact ⟨hc1, hc2⟩
  | cons a w2 =>
    simp only [List.cons_append] at h
    injection h with h1 h2
    subst h1
    have ha := hw a (List.mem_cons_self a w2)
    exact ⟨space_not_digit a ha,
      ne_of_pred isPySpace a '.' ha (by decide)⟩

/-- Expecting the character that is there consumes it. -/
theorem expectChar_same (c : Char) (r : Str) :
    expectChar c (c :: r) = some r := by
  simp [expectChar]

/-- A cons whose head falsifies the predicate. -/
theorem headFalse_cons (p : Char → Bool) (c : Char) (r : Str)
    (hc : p c = false) : HeadFalse p (c :: r) := by
  intro x xs h
  injection h with h1 h2
  subst h1
  exact hc

/-- The coordinate pattern accepts arbitrary whitespace in each of its
nine `\s*` slots, around any well-formed signed number literals, and
yields exactly the four literal values. -/
theorem parseRectCore_rectLit
    (w1 w2 w3 w4 w5 w6 w7 w8 w9 : Str)
    (sg1 sg2 sg3 sg4 : Bool) (ds1 ds2 ds3 ds4 : Str)
    (fr1 fr2 fr3 fr4 : Option Str)
    (hw1 : WsOk w1) (hw2 : WsOk w2) (hw3 : WsOk w3) (hw4 : WsOk w4)
    (hw5 : WsOk w5) (hw6 : WsOk w6) (hw7 : WsOk w7) (hw8 : WsOk w8)
    (hw9 : WsOk w9)
    (hd1 : DigitsOk ds1) (hd2 : DigitsOk ds2) (hd3 : DigitsOk ds3)
    (hd4 : DigitsOk ds4)
    (hf1 : ∀ f, fr1 = some f → DigitsOk f)
    (hf2 : ∀ f, fr2 = some f → DigitsOk f)
    (hf3 : ∀ f, fr3 = some f → DigitsOk f)
    (hf4 : ∀ f, fr4 = some f → DigitsOk f) :
    parseRectCore (rectLit w1 (numLit sg1 ds1 fr1) w2 w3 (numLit sg2 ds2 fr2)
        w4 w5 w6 (numLit sg3 ds3 fr3) w7 w8 (numLit sg4 ds4 fr4) w9) =
      some (numVal sg1 ds1 fr1, numVal sg2 ds2 fr2, numVal sg3 ds3 fr3,
        numVal sg4 ds4 fr4) := by
  unfold rectLit
  set E := w8 ++ (numLit sg4 ds4 fr4 ++ (w9 ++ ('\x7d' :: '\x7d' :: []))) with hE
  set D := w6 ++ (numLit sg3 ds3 fr3 ++ (w7 ++ (',' :: E))) with hD
  set C := w5 ++ ('\x7b' :: D) with hC
  set B := w3 ++ (numLit sg2 ds2 fr2 ++ (w4 ++ ('\x7d' :: ',' :: C))) with hB
  set A := w1 ++ (numLit sg1 ds1 fr1 ++ (w2 ++ (',' :: B))) with hA
  have s1 : skipWs A = numLit sg1 ds1 fr1 ++ (w2 ++ (',' :: B)) := by
    rw [hA]
    exact skipWs_append _ _ hw1 (numLit_append_headFalse sg1 ds1 fr1 _ hd1)
  have p1 : parseNum (numLit sg1 ds1 fr1 ++ (w2 ++ (',' :: B))) =
      some (numVal sg1 ds1 fr1, w2 ++ (',' :: B)) :=
    parseNum_lit sg1 ds1 fr1 _ hd1 hf1
      (numBoundary_ws_cons w2 ',' B hw2 (by decide) (by decide))
  have s2 : skipWs (w2 ++ (',' :: B)) = ',' :: B :=
    skipWs_append _ _ hw2 (headFalse_cons _ ',' _ (by decide))
  have s3 : skipWs B = numLit sg2 ds2 fr2 ++ (w4 ++ ('\x7d' :: ',' :: C)) := by
    rw [hB]
    exact skipWs_append _ _ hw3 (numLit_append_headFalse sg2 ds2 fr2 _ hd2)
  have p2 : parseNum (numLit sg2 ds2 fr2 ++ (w4 ++ ('\x7d' :: ',' :: C))) =
      some (numVal sg2 ds2 fr2, w4 ++ ('\x7d' :: ',' :: C)) :=
    parseNum_lit sg2 ds2 fr2 _ hd2 hf2
      (numBoundary_ws_cons w4 '\x7d' (',' :: C) hw4 (by decide) (by decide))
  have s4 : skipWs (w4 ++ ('\x7d' :: ',' :: C)) = '\x7d' :: ',' :: C :=
    skipWs_append _ _ hw4 (headFalse_cons _ '\x7d' _ (by decide))
  have s5 : skipWs C = '\x7b' :: D := by
    rw [hC]
    exact skipWs_append _ _ hw5 (headFalse_cons _ '\x7b' _ (by decide))
  have s6 : skipWs D = numLit sg3 ds3 fr3 ++ (w7 ++ (',' :: E)) := by
    rw [hD]
    exact skipWs_append _ _ hw6 (numLit_append_headFalse sg3 ds3 fr3 _ hd3)
  have p3 : parseNum (numLit sg3 ds3 fr3 ++ (w7 ++ (',' :: E))) =
      some (numVal sg3 ds3 fr3, w7 ++ (',' :: E)) :=
    parseNum_lit sg3 ds3 fr3 _ hd3 hf3
      (numBoundary_ws_cons w7 ',' E hw7 (by decide) (by decide))
  have s7 : skipWs (w7 ++ (',' :: E)) = ',' :: E :=
    skipWs_append _ _ hw7 (headFalse_cons _ ',' _ (by decide))
  have s8 : skipWs E = numLit sg4 ds4 fr4 ++ (w9 ++ ('\x7d' :: '\x7d' :: [])) := by
    rw [hE]
    exact skipWs_append _ _ hw8 (numLit_append_headFalse sg4 ds4 fr4 _ hd4)
  have p4 : parseNum (numLit sg4 ds4 fr4 ++ (w9 ++ ('\x7d' :: '\x7d' :: []))) =
      some (numVal sg4 ds4 fr4, w9 ++ ('\x7d' :: '\x7d' :: [])) :=
    parseNum_lit sg4 ds4 fr4 _ hd4 hf4
      (numBoundary_ws_cons w9 '\x7d' ('\x7d' :: []) hw9 (by decide) (by decide))
  have s9 : skipWs (w9 ++ ('\x7d' :: '\x7d' :: [])) = '\x7d' :: '\x7d' :: [] :=
    skipWs_append _ _ hw9 (headFalse_cons _ '\x7d' _ (by decide))
  simp only [parseRectCore, expectChar_same, s1, p1, s2, s3, p2, s4, s5, s6,
    p3, s7, s8, p4, s9, Option.bind_eq_bind, Option.some_bind, if_true]

/-- A single digit character is a digit run. -/
theorem digitsOk_single_digitChar (m : Nat) (h : m < 10) :
    DigitsOk [digitChar m] := by
  refine ⟨by simp, ?_⟩
  intro c hc
  rcases List.mem_singleton.mp hc with rfl
  exact isDigitChar_digitChar m h

/-- The one-decimal rendering is a signed number literal: optional sign,
the digits of the integer part, a point, one fractional digit. -/
theorem fmtTenths_eq_numLit (n : ℤ) :
    fmtTenths n = numLit (decide (n < 0)) (natToDigits (n.natAbs / 10))
      (some [digitChar (n.natAbs % 10)]) := by
  unfold fmtTenths numLit
  by_cases h : n < 0
  · simp [h]
  · simp [h]

/-- The parsed value of the one-decimal rendering of `n` tenths is
`n / 10`. -/
theorem numVal_fmtTenths (n : ℤ) :
    numVal (decide (n < 0)) (natToDigits (n.natAbs / 10))
      (some [digitChar (n.natAbs % 10)]) = (n : ℚ) / 10 := by
  have hfrac : fracVal [digitChar (n.natAbs % 10)] =
      ((n.natAbs % 10 : ℕ) : ℚ) / 10 := by
    unfold fracVal digitsVal
    simp [digitChar_toNat (n.natAbs % 10) (by omega)]
  have hred : numVal (decide (n < 0)) (natToDigits (n.natAbs / 10))
      (some [digitChar (n.natAbs % 10)]) =
      if decide (n < 0) = true then
        -((digitsVal (natToDigits (n.natAbs / 10)) : ℚ) +
          fracVal [digitChar (n.natAbs % 10)])
      else (digitsVal (natToDigits (n.natAbs / 10)) : ℚ) +
        fracVal [digitChar (n.natAbs % 10)] := rfl
  rw [hred, digitsVal_natToDigits, hfrac]
  have key : ((n.natAbs / 10 : ℕ) : ℚ) + ((n.natAbs % 10 : ℕ) : ℚ) / 10 =
      ((n.natAbs : ℕ) : ℚ) / 10 := by
    have h10 : 10 * (n.natAbs / 10) + n.natAbs % 10 = n.natAbs :=
      Nat.div_add_mod n.natAbs 10
    have hcast : ((10 * (n.natAbs / 10) + n.natAbs % 10 : ℕ) : ℚ) =
        ((n.natAbs : ℕ) : ℚ) := by exact_mod_cast congrArg Nat.cast h10
    push_cast at hcast
    field_simp
    linarith
  by_cases h : n < 0
  · have habs : ((n.natAbs : ℕ) : ℚ) = -(n : ℚ) := by
      rw [Int.cast_natAbs]
      push_cast
      exact abs_of_neg (by exact_mod_cast h)
    rw [if_pos (by simpa using h), key, habs]
    ring
  · have habs : ((n.natAbs : ℕ) : ℚ) = (n : ℚ) := by
      rw [Int.cast_natAbs]
      push_cast
      exact abs_of_nonneg (by exact_mod_cast not_lt.mp h)
    rw [if_neg (by simpa using h), key, habs]

/-- The `_format_rect` output is the coordinate shape with a single
space after each comma and no other whitespace. -/
theorem formatRect_eq_rectLit (x y w h : ℚ) :
    formatRect x y w h =
      rectLit [] (fmtTenths (roundHalfEven (10 * x))) [] [' ']
        (fmtTenths (roundHalfEven (10 * y))) [] [' '] []
        (fmtTenths (roundHalfEven (10 * w))) [] [' ']
        (fmtTenths (roundHalfEven (10 * h))) [] := by
  simp [formatRect, rectLit]

/-- The formatted rect has no surrounding whitespace to strip. -/
theorem pyStrip_formatRect (x y w h : ℚ) :
    pyStrip (formatRect x y w h) = formatRect x y w h := by
  apply pyStrip_eq_self
  · unfold formatRect
    exact headFalse_cons _ '\x7b' _ (by decide)
  · have hsplit : formatRect x y w h =
        ('\x7b' :: '\x7b' :: (fmtTenths (roundHalfEven (10 * x)) ++
          ',' :: ' ' :: fmtTenths (roundHalfEven (10 * y)) ++
          '\x7d' :: ',' :: ' ' :: '\x7b' :: fmtTenths (roundHalfEven (10 * w)) ++
          ',' :: ' ' :: fmtTenths (roundHalfEven (10 * h)))) ++
          ['\x7d', '\x7d'] := by
      simp [formatRect]
    rw [hsplit, List.reverse_append]
    exact headFalse_cons _ '\x7d' _ (by decide)

/-- The empty slot is whitespace. -/
theorem wsOk_nil : WsOk [] := by intro c hc; cases hc

/-- A single space is whitespace. -/
theorem wsOk_space : WsOk [' '] := by
  intro c hc
  rcases List.mem_singleton.mp hc with rfl
  decide

/-- C3.  Rect round-trip: for all rect components (any finite `x`, `y`
and non-negative `w`, `h`), parsing the formatted rect succeeds and
returns each component rounded to one decimal place (CPython `%.1f`
rounding on the exact value). -/
theorem parseRect_formatRect_roundTrip (x y w h : ℚ)
    (hw : 0 ≤ w) (hh : 0 ≤ h) :
    parseCoordinateRect (formatRect x y w h) =
      .ok (round1 x, round1 y, round1 w, round1 h) := by
  unfold parseCoordinateRect
  rw [pyStrip_formatRect, formatRect_eq_rectLit,
    fmtTenths_eq_numLit (roundHalfEven (10 * x)),
    fmtTenths_eq_numLit (roundHalfEven (10 * y)),
    fmtTenths_eq_numLit (roundHalfEven (10 * w)),
    fmtTenths_eq_numLit (roundHalfEven (10 * h))]
  rw [parseRectCore_rectLit [] [] [' '] [] [' '] [] [] [' '] []
    (decide (roundHalfEven (10 * x) < 0)) (decide (roundHalfEven (10 * y) < 0))
    (decide (roundHalfEven (10 * w) < 0)) (decide (roundHalfEven (10 * h) < 0))
    (natToDigits ((roundHalfEven (10 * x)).natAbs / 10))
    (natToDigits ((roundHalfEven (10 * y)).natAbs / 10))
    (natToDigits ((roundHalfEven (10 * w)).natAbs / 10))
    (natToDigits ((roundHalfEven (10 * h)).natAbs / 10))
    (some [digitChar ((roundHalfEven (10 * x)).natAbs % 10)])
    (some [digitChar ((roundHalfEven (10 * y)).natAbs % 10)])
    (some [digitChar ((roundHalfEven (10 * w)).natAbs % 10)])
    (some [digitChar ((roundHalfEven (10 * h)).natAbs % 10)])
    wsOk_nil wsOk_nil wsOk_space wsOk_nil wsOk_space wsOk_nil wsOk_nil
    wsOk_space wsOk_nil
    (natToDigits_digitsOk _) (natToDigits_digitsOk _)
    (natToDigits_digitsOk _) (natToDigits_digitsOk _)
    (by intro f hf; injection hf with hf2; subst hf2
        exact digitsOk_single_digitChar _ (by omega))
    (by intro f hf; injection hf with hf2; subst hf2
        exact digitsOk_single_digitChar _ (by omega))
    (by intro f hf; injection hf with hf2; subst hf2
        exact digitsOk_single_digitChar _ (by omega))
    (by intro f hf; injection hf with hf2; subst hf2
        exact digitsOk_single_digitChar _ (by omega))]
  rw [numVal_fmtTenths, numVal_fmtTenths, numVal_fmtTenths, numVal_fmtTenths]
  rfl

/-- Witness for C3 at `x = 1/4` (renders `0.2`, the half-to-even tie),
`y = 1`, `w = 2`, `h = 3`. -/
theorem parseRect_formatRect_roundTrip_witness :
    (0 : ℚ) ≤ 2 ∧ (0 : ℚ) ≤ 3 ∧
      parseCoordinateRect (formatRect (1 / 4) 1 2 3) =
        .ok (1 / 5, 1, 2, 3) := by
  have h2 : (0 : ℚ) ≤ 2 := by with_unfolding_all decide
  have h3 : (0 : ℚ) ≤ 3 := by with_unfolding_all decide
  refine ⟨h2, h3, ?_⟩
  rw [parseRect_formatRect_roundTrip (1 / 4) 1 2 3 h2 h3]
  with_unfolding_all decide

/-- A single digit is a digit run. -/
theorem digitsOk_single (c : Char) (h : isDigitChar c = true) :
    DigitsOk [c] := by
  refine ⟨by simp, ?_⟩
  intro x hx
  rcases List.mem_singleton.mp hx with rfl
  exact h

/-- A rect in the accepted shape has no surrounding whitespace. -/
theorem pyStrip_rectLit (w1 t1 w2 w3 t2 w4 w5 w6 t3 w7 w8 t4 w9 : Str) :
    pyStrip (rectLit w1 t1 w2 w3 t2 w4 w5 w6 t3 w7 w8 t4 w9) =
      rectLit w1 t1 w2 w3 t2 w4 w5 w6 t3 w7 w8 t4 w9 := by
  apply pyStrip_eq_self
  · unfold rectLit
    exact headFalse_cons _ '\x7b' _ (by decide)
  · have hsplit : rectLit w1 t1 w2 w3 t2 w4 w5 w6 t3 w7 w8 t4 w9 =
        ('\x7b' :: ('\x7b' :: (w1 ++ (t1 ++ (w2 ++ (',' :: (w3 ++ (t2 ++ (w4 ++ ('\x7d' :: (',' :: (w5 ++ ('\x7b' :: (w6 ++ (t3 ++ (w7 ++ (',' :: (w8 ++ (t4 ++ w9))))))))))))))))))) ++
          ['\x7d', '\x7d'] := by
      simp [rectLit, List.append_assoc]
    rw [hsplit, List.reverse_append]
    exact headFalse_cons _ '\x7d' _ (by decide)

/-- C9 (amended).  `_parse_coordinate_rect` accepts the brace-pair form
with integer or decimal, signed numbers, ignoring whitespace in the nine
slots the pattern allows — after the opening `\x7b\x7b`, around the
comma inside each pair, after the comma separating the pairs, and before
the closing `\x7d\x7d` (but not between the first pair's closing brace
and the separating comma, nor inside the double braces) — and every
failed parse raises a validation error naming the offending input
string. -/
theorem parseRect_slot_whitespace_and_error :
    (∀ w1 w2 w3 w4 w5 w6 w7 w8 w9 : Str, ∀ sg1 sg2 sg3 sg4 : Bool,
      ∀ ds1 ds2 ds3 ds4 : Str, ∀ fr1 fr2 fr3 fr4 : Option Str,
      WsOk w1 → WsOk w2 → WsOk w3 → WsOk w4 → WsOk w5 → WsOk w6 →
      WsOk w7 → WsOk w8 → WsOk w9 →
      DigitsOk ds1 → DigitsOk ds2 → DigitsOk ds3 → DigitsOk ds4 →
      (∀ f, fr1 = some f → DigitsOk f) → (∀ f, fr2 = some f → DigitsOk f) →
      (∀ f, fr3 = some f → DigitsOk f) → (∀ f, fr4 = some f → DigitsOk f) →
      parseCoordinateRect (rectLit w1 (numLit sg1 ds1 fr1) w2 w3
          (numLit sg2 ds2 fr2) w4 w5 w6 (numLit sg3 ds3 fr3) w7 w8
          (numLit sg4 ds4 fr4) w9) =
        .ok (numVal sg1 ds1 fr1, numVal sg2 ds2 fr2, numVal sg3 ds3 fr3,
          numVal sg4 ds4 fr4)) ∧
      (∀ s m, parseCoordinateRect s = .error m → m = coordErrMsg s) := by
  constructor
  · intro w1 w2 w3 w4 w5 w6 w7 w8 w9 sg1 sg2 sg3 sg4 ds1 ds2 ds3 ds4
      fr1 fr2 fr3 fr4 hw1 hw2 hw3 hw4 hw5 hw6 hw7 hw8 hw9 hd1 hd2 hd3 hd4
      hf1 hf2 hf3 hf4
    unfold parseCoordinateRect
    rw [pyStrip_rectLit,
      parseRectCore_rectLit w1 w2 w3 w4 w5 w6 w7 w8 w9 sg1 sg2 sg3 sg4
        ds1 ds2 ds3 ds4 fr1 fr2 fr3 fr4 hw1 hw2 hw3 hw4 hw5 hw6 hw7 hw8 hw9
        hd1 hd2 hd3 hd4 hf1 hf2 hf3 hf4]
  · intro s m h
    unfold parseCoordinateRect at h
    cases hs : parseRectCore (pyStrip s) with
    | some v => rw [hs] at h; cases h
    | none =>
      rw [hs] at h
      injection h with h2
      exact h2.symm

/-- C9.  Counterexample to "whitespace around any separator": a single
space between the first pair's closing brace and the separating comma
makes the parse fail (the pattern has `\x7d\,` with no `\s*` between),
with the validation error naming the input. -/
theorem parseRect_ws_before_middle_comma_counterexample :
    parseCoordinateRect (str "\x7b\x7b1, 2\x7d , \x7b3, 4\x7d\x7d") =
        .error (coordErrMsg (str "\x7b\x7b1, 2\x7d , \x7b3, 4\x7d\x7d")) ∧
      parseCoordinateRect (str "\x7b\x7b1, 2\x7d, \x7b3, 4\x7d\x7d") =
        .ok (1, 2, 3, 4) := by
  constructor
  · with_unfolding_all decide
  · with_unfolding_all decide

/-- Witness for C9's amended theorem: whitespace in the allowed slots
around signed decimal and integer literals parses to the four values,
and a failing input's error names the input. -/
theorem parseRect_slot_whitespace_witness :
    rectLit [' '] (numLit true ['1'] (some ['5'])) [] [' ']
        (numLit false ['2'] none) ['\x09'] [' '] []
        (numLit false ['3'] none) [' '] []
        (numLit false ['4'] none) [' '] =
      str "\x7b\x7b -1.5, 2\x09\x7d, \x7b3 ,4 \x7d\x7d" ∧
    parseCoordinateRect (str "\x7b\x7b -1.5, 2\x09\x7d, \x7b3 ,4 \x7d\x7d") =
      .ok (-(3 / 2), 2, 3, 4) ∧
    coordErrMsg (str "junk") = str "coordinate must look like \x7b\x7bx, y\x7d, \x7bw, h\x7d\x7d; got \x27junk\x27" := by
  have hws : WsOk ['\x09'] := by
    intro c hc
    rcases List.mem_singleton.mp hc with rfl
    decide
  have h := parseRect_slot_whitespace_and_error.1 [' '] [] [' '] ['\x09']
    [' '] [] [' '] [] [' '] true false false false ['1'] ['2'] ['3'] ['4']
    (some ['5']) none none none
    wsOk_space wsOk_nil wsOk_space hws wsOk_space wsOk_nil wsOk_space
    wsOk_nil wsOk_space
    (digitsOk_single '1' (by decide)) (digitsOk_single '2' (by decide))
    (digitsOk_single '3' (by decide)) (digitsOk_single '4' (by decide))
    (by intro f hf; injection hf with h2; subst h2
        exact digitsOk_single '5' (by decide))
    (by intro f hf; cases hf) (by intro f hf; cases hf)
    (by intro f hf; cases hf)
  have hstr : rectLit [' '] (numLit true ['1'] (some ['5'])) [] [' ']
      (numLit false ['2'] none) ['\x09'] [' '] []
      (numLit false ['3'] none) [' '] []
      (numLit false ['4'] none) [' '] =
      str "\x7b\x7b -1.5, 2\x09\x7d, \x7b3 ,4 \x7d\x7d" := by decide
  refine ⟨hstr, ?_, by decide⟩
  rw [← hstr, h]
  with_unfolding_all decide

end Proofs

end Bridge
